import Mathlib

/-!
Verification development for the `adx-query` snapshot reader, filter engine
and query engine.  The Python sources (`dat_reader.py`, `filter_engine.py`,
`query_engine.py`) are shallowly embedded: byte sources are `List ℕ`
(one natural per byte), Python `str` values are `List Char`, machine
integers are `ℕ`/`ℤ` with explicit two's-complement decoding, and every
fallible operation returns `Except PyErr`.
-/

namespace AdxQuery

/-- Errors surfaced by the embedded code.  Each constructor corresponds to a
Python exception raised by the sources: `eof` is the `EOFError` raised by
`_read_exact`, `fileNotFound` is `FileNotFoundError`, `keyError` the
`KeyError` raised by `get_attribute_values`, `indexError` the `IndexError`
of a bad list subscript, `filterSyntaxError` the parser's
`FilterSyntaxError` (message elided), `seekOutOfRange` the `ValueError`
raised by `mmap.seek` for a position outside the map (negative file seeks,
an `OSError`, are folded into the same constructor), `mmapEmpty` the
`ValueError` raised by `mmap.mmap` on an empty file, and `byteRange` the
`ValueError` raised by `bytearray.append` for a value outside 0..255.
`outOfFuel` is an artifact of the fuel encoding of loops and is unreachable
for the fuel supplied by the wrappers. -/
inductive PyErr where
  | eof (expected received : ℕ)
  | fileNotFound
  | keyError
  | indexError
  | filterSyntaxError
  | seekOutOfRange
  | mmapEmpty
  | byteRange
  | outOfFuel
deriving DecidableEq, Repr

/-- A decoded Python attribute value: `bool`, `int`, `bytes` or `str`
(the only runtime types `_read_values` produces). -/
inductive PyValue where
  | bool (b : Bool)
  | int (n : ℤ)
  | bytes (bs : List ℕ)
  | str (s : List Char)
deriving DecidableEq, Repr

/-- Convenience: the characters of a Lean string literal. -/
def s2c (s : String) : List Char := s.data

/-- Python `str.isspace` for a single character, restricted to the ASCII
whitespace characters (the only ones exercised by this development). -/
def pyIsSpace (c : Char) : Bool :=
  c = ' ' ∨ c = '\t' ∨ c = '\n' ∨ c = '\r' ∨ c = '\x0b' ∨ c = '\x0c'

/-- Python `str.strip()` (both ends, whitespace). -/
def pyStrip (s : List Char) : List Char :=
  ((s.dropWhile pyIsSpace).reverse.dropWhile pyIsSpace).reverse

/-- Python `str.lower()` on one character.  Faithful on ASCII and on every
character this development evaluates (in particular 'ß', whose lowercase is
itself); identity on other characters. -/
def pyLowerChar (c : Char) : Char :=
  if 'A' ≤ c ∧ c ≤ 'Z' then Char.ofNat (c.toNat + 32) else c

/-- Python `str.lower()`. -/
def pyLowerStr (s : List Char) : List Char := s.map pyLowerChar

/-- Python `str.casefold()` on one character: full Unicode case folding,
modelled on ASCII plus 'ß' (which folds to "ss", the classic character on
which case folding differs from lowercasing); identity elsewhere. -/
def pyCaseFoldChar (c : Char) : List Char :=
  if 'A' ≤ c ∧ c ≤ 'Z' then [Char.ofNat (c.toNat + 32)]
  else if c = 'ß' then ['s', 's'] else [c]

/-- Python `str.casefold()`. -/
def pyCaseFoldStr (s : List Char) : List Char := s.flatMap pyCaseFoldChar

/-- The numeric value of a digit character under the given base
(Python accepts `0`-`9`, `a`-`z`, `A`-`Z`, valid iff below the base). -/
def pyDigitVal (base : ℕ) (c : Char) : Option ℕ :=
  let v : Option ℕ :=
    if '0' ≤ c ∧ c ≤ '9' then some (c.toNat - '0'.toNat)
    else if 'a' ≤ c ∧ c ≤ 'z' then some (c.toNat - 'a'.toNat + 10)
    else if 'A' ≤ c ∧ c ≤ 'Z' then some (c.toNat - 'A'.toNat + 10)
    else none
  match v with
  | some d => if d < base then some d else none
  | none => none

/-- Digit-run scanner shared by the `int(s, base)` model: consumes the whole
list, allowing single underscores between digits (Python's numeric-literal
underscore rule).  `lastDigit` records whether the previous character was a
digit (so an underscore is legal and so the run may end). -/
def pyDigitsGo (base : ℕ) : List Char → ℕ → Bool → Option ℕ
  | [], acc, lastDigit => if lastDigit then some acc else none
  | c :: rest, acc, lastDigit =>
    if c = '_' then
      if lastDigit then pyDigitsGo base rest acc false else none
    else
      match pyDigitVal base c with
      | some d => pyDigitsGo base rest (acc * base + d) true
      | none => none

/-- A full digit run.  `afterPrefix` is true directly after a base prefix
such as `0x`, where Python additionally allows one leading underscore. -/
def pyParseDigitRun (base : ℕ) (afterPrefix : Bool) (cs : List Char) : Option ℕ :=
  match cs with
  | '_' :: rest => if afterPrefix then pyDigitsGo base rest 0 false else none
  | _ => pyDigitsGo base cs 0 false

/-- The magnitude part of Python `int(s, 0)` (base auto-detection, applied
after stripping whitespace and the sign): `0x`/`0X` hexadecimal, `0o`/`0O`
octal, `0b`/`0B` binary, otherwise decimal — where a literal starting with
`0` and containing further digits is valid only if its value is zero. -/
def pyIntBase0Mag : List Char → Option ℕ
  | '0' :: x :: rest =>
    if x = 'x' ∨ x = 'X' then pyParseDigitRun 16 true rest
    else if x = 'o' ∨ x = 'O' then pyParseDigitRun 8 true rest
    else if x = 'b' ∨ x = 'B' then pyParseDigitRun 2 true rest
    else
      match pyParseDigitRun 10 false ('0' :: x :: rest) with
      | some 0 => some 0
      | _ => none
  | cs => pyParseDigitRun 10 false cs

/-- Python `int(s, 0)`. -/
def pyIntBase0 (s : List Char) : Option ℤ :=
  let t := pyStrip s
  match t with
  | '+' :: u => (pyIntBase0Mag u).map (fun m => (m : ℤ))
  | '-' :: u => (pyIntBase0Mag u).map (fun m => -(m : ℤ))
  | u => (pyIntBase0Mag u).map (fun m => (m : ℤ))

/-- The magnitude part of Python `int(s, 16)`: an optional `0x`/`0X` prefix
followed by a hex digit run. -/
def pyIntBase16Mag : List Char → Option ℕ
  | '0' :: x :: rest =>
    if x = 'x' ∨ x = 'X' then pyParseDigitRun 16 true rest
    else pyParseDigitRun 16 false ('0' :: x :: rest)
  | cs => pyParseDigitRun 16 false cs

/-- Python `int(s, 16)` (used by the parser's `_parse_escape`): whitespace
is stripped and a single sign is allowed around the hex digits. -/
def pyIntBase16 (s : List Char) : Option ℤ :=
  let t := pyStrip s
  match t with
  | '+' :: u => (pyIntBase16Mag u).map (fun m => (m : ℤ))
  | '-' :: u => (pyIntBase16Mag u).map (fun m => -(m : ℤ))
  | u => (pyIntBase16Mag u).map (fun m => (m : ℤ))

/-! ### Windows FILETIME conversion (`_windows_filetime_to_datetime`)

The source computes `datetime.timedelta(microseconds=value / 10)` with
Python float (`/`) division.  That is: the exact rational `value/10` is
rounded to the nearest IEEE binary64 (53-bit mantissa, ties to even), and
`timedelta` then rounds the float to a whole number of microseconds, again
ties to even.  Datetimes are represented as integer microseconds since
1601-01-01 UTC. -/

/-- Largest `k` with `2^k ≤ n`, for `n ≥ 1` (fuel-based binary logarithm). -/
def natLog2Aux : ℕ → ℕ → ℕ
  | 0, _ => 0
  | fuel + 1, n => if n < 2 then 0 else natLog2Aux fuel (n / 2) + 1

/-- Largest `k` with `2^k ≤ n` (0 for `n = 0`). -/
def natLog2 (n : ℕ) : ℕ := natLog2Aux n n

/-- The binary exponent of a positive rational: the unique `e` with
`2^e ≤ q < 2^(e+1)`. -/
def qExp2 (q : ℚ) : ℤ :=
  if 1 ≤ q then (natLog2 (Int.toNat ⌊q⌋) : ℤ)
  else
    let m := natLog2 (Int.toNat ⌊q⁻¹⌋)
    if (2 : ℚ) ^ (-(m : ℤ)) ≤ q then -(m : ℤ) else -((m : ℤ) + 1)

/-- Round a rational to the nearest integer, ties to even (Python's
`round` and the rounding used by `timedelta` for float microseconds). -/
def roundHalfEven (q : ℚ) : ℤ :=
  let f := ⌊q⌋
  let r := q - (f : ℚ)
  if r < 1 / 2 then f
  else if 1 / 2 < r then f + 1
  else if f % 2 = 0 then f else f + 1

/-- Round a positive rational to the nearest IEEE binary64 value
(53-bit mantissa, ties to even; no overflow/underflow handling — the
inputs of this development are in the normal range). -/
def floatRound53 (q : ℚ) : ℚ :=
  if q ≤ 0 then 0
  else
    let e := qExp2 q
    let m := roundHalfEven (q * (2 : ℚ) ^ ((52 : ℤ) - e))
    (m : ℚ) * (2 : ℚ) ^ (e - (52 : ℤ))

/-- Seconds between 1601-01-01 and 1970-01-01 (both UTC). -/
def EPOCH_1601_TO_1970 : ℕ := 11644473600

/-- `_windows_filetime_to_datetime`, as microseconds since 1601-01-01 UTC:
value 0 maps to `datetime.fromtimestamp(0, utc)` (the 1970 epoch);
otherwise `1601-01-01 + timedelta(microseconds=value / 10)` where `/` is
Python float division and `timedelta` rounds float microseconds to the
nearest integer, ties to even. -/
def windowsFiletimeToDatetime (value : ℕ) : ℤ :=
  if value = 0 then (EPOCH_1601_TO_1970 : ℤ) * 1000000
  else roundHalfEven (floatRound53 ((value : ℚ) / 10))

/-! ### Byte-source primitives

The byte source (memory map or file handle) is a `List ℕ` of byte values.
Each read/seek takes the current position and returns the result paired
with the new position, in `Except PyErr`.  `fhBind` chains such steps. -/

/-- Chain two position-threading file operations. -/
def fhBind (x : Except PyErr (α × ℕ)) (f : α → ℕ → Except PyErr (β × ℕ)) :
    Except PyErr (β × ℕ) :=
  match x with
  | .error e => .error e
  | .ok (a, p) => f a p

@[simp] theorem fhBind_ok (a : α) (p : ℕ) (f : α → ℕ → Except PyErr (β × ℕ)) :
    fhBind (.ok (a, p)) f = f a p := rfl

@[simp] theorem fhBind_error (e : PyErr) (f : α → ℕ → Except PyErr (β × ℕ)) :
    fhBind (.error e) f = .error e := rfl

/-- Exception-propagating sequencing (Python control flow: an uncaught
exception aborts the surrounding computation). -/
def exBind (x : Except PyErr α) (f : α → Except PyErr β) : Except PyErr β :=
  match x with
  | .error e => .error e
  | .ok a => f a

@[simp] theorem exBind_ok (a : α) (f : α → Except PyErr β) :
    exBind (.ok a) f = f a := rfl

@[simp] theorem exBind_error (e : PyErr) (f : α → Except PyErr β) :
    exBind (.error e) f = .error e := rfl

/-- `fh.read(n)`: returns up to `n` bytes from the current position and
advances by the number of bytes actually read (never fails). -/
def readUpTo (data : List ℕ) (n : ℕ) (pos : ℕ) : List ℕ × ℕ :=
  let chunk := (data.drop pos).take n
  (chunk, pos + chunk.length)

/-- `_read_exact(fh, n)`: read exactly `n` bytes or raise `EOFError`. -/
def readExact (data : List ℕ) (n : ℕ) (pos : ℕ) : Except PyErr (List ℕ × ℕ) :=
  let chunk := (data.drop pos).take n
  if chunk.length = n then .ok (chunk, pos + n)
  else .error (.eof n chunk.length)

/-- `fh.seek(target)`.  A negative target is an error for both kinds of
source; a memory map (`useMmap = true`) additionally rejects positions
beyond the end of the map (`ValueError: seek out of range`), whereas a
plain file handle accepts them. -/
def seekFh (useMmap : Bool) (data : List ℕ) (target : ℤ) (_pos : ℕ) :
    Except PyErr (Unit × ℕ) :=
  if target < 0 then .error .seekOutOfRange
  else if useMmap ∧ (data.length : ℤ) < target then .error .seekOutOfRange
  else .ok ((), target.toNat)

/-- Little-endian value of a byte list. -/
def leNat (bs : List ℕ) : ℕ := bs.foldr (fun b acc => b + 256 * acc) 0

/-- `_read_uint32`. -/
def readUint32 (data : List ℕ) (pos : ℕ) : Except PyErr (ℕ × ℕ) :=
  fhBind (readExact data 4 pos) fun bs p => .ok (leNat bs, p)

/-- `_read_int32` (two's complement). -/
def readInt32 (data : List ℕ) (pos : ℕ) : Except PyErr (ℤ × ℕ) :=
  fhBind (readExact data 4 pos) fun bs p =>
    let u := leNat bs
    .ok (if u < 2 ^ 31 then (u : ℤ) else (u : ℤ) - 2 ^ 32, p)

/-- `_read_int64` (two's complement). -/
def readInt64 (data : List ℕ) (pos : ℕ) : Except PyErr (ℤ × ℕ) :=
  fhBind (readExact data 8 pos) fun bs p =>
    let u := leNat bs
    .ok (if u < 2 ^ 63 then (u : ℤ) else (u : ℤ) - 2 ^ 64, p)

/-- `_read_uint16`. -/
def readUint16 (data : List ℕ) (pos : ℕ) : Except PyErr (ℕ × ℕ) :=
  fhBind (readExact data 2 pos) fun bs p => .ok (leNat bs, p)

/-- Run a positioned action `n` times, collecting the results in order. -/
def repeatFh (n : ℕ) (act : ℕ → Except PyErr (α × ℕ)) (pos : ℕ) :
    Except PyErr (List α × ℕ) :=
  match n with
  | 0 => .ok ([], pos)
  | n + 1 =>
    fhBind (act pos) fun x p =>
    fhBind (repeatFh n act p) fun xs p2 => .ok (x :: xs, p2)

/-- Run a positioned action for each element of a list, in order. -/
def mapFh (xs : List α) (act : α → ℕ → Except PyErr (β × ℕ)) (pos : ℕ) :
    Except PyErr (List β × ℕ) :=
  match xs with
  | [] => .ok ([], pos)
  | x :: rest =>
    fhBind (act x pos) fun y p =>
    fhBind (mapFh rest act p) fun ys p2 => .ok (y :: ys, p2)

/-! ### Text decoding -/

/-- Pair up bytes into little-endian UTF-16 code units; a trailing odd byte
is dropped (the sources decode with `errors="ignore"`). -/
def bytesToUnits : List ℕ → List ℕ
  | b0 :: b1 :: rest => (b0 + 256 * b1) :: bytesToUnits rest
  | [_] => []
  | [] => []

/-- Decode UTF-16 code units to characters, combining surrogate pairs and
skipping lone surrogates (`errors="ignore"`). -/
def utf16DecodeUnits : List ℕ → List Char
  | [] => []
  | u :: v :: rest =>
    if 0xD800 ≤ u ∧ u ≤ 0xDBFF then
      if 0xDC00 ≤ v ∧ v ≤ 0xDFFF then
        Char.ofNat (0x10000 + (u - 0xD800) * 1024 + (v - 0xDC00)) :: utf16DecodeUnits rest
      else utf16DecodeUnits (v :: rest)
    else if 0xDC00 ≤ u ∧ u ≤ 0xDFFF then utf16DecodeUnits (v :: rest)
    else Char.ofNat u :: utf16DecodeUnits (v :: rest)
  | [u] =>
    if 0xD800 ≤ u ∧ u ≤ 0xDFFF then [] else [Char.ofNat u]

/-- Remove trailing NUL characters (`str.rstrip("\x00")`). -/
def rstripNul (s : List Char) : List Char :=
  (s.reverse.dropWhile (fun c => c = '\x00')).reverse

/-- `_read_utf16le_string`: decode a fixed-size UTF-16LE field and strip
trailing NULs. -/
def utf16leToStr (bs : List ℕ) : List Char :=
  rstripNul (utf16DecodeUnits (bytesToUnits bs))

/-- `bytes.decode("ascii", errors="ignore")` followed by
`.rstrip("\x00")` (used for the header signature). -/
def asciiIgnoreToStr (bs : List ℕ) : List Char :=
  rstripNul ((bs.filter (fun b => b < 128)).map Char.ofNat)

/-- `_read_wchar_string` body: collect UTF-16 code units two bytes at a
time until the NUL unit, raising `EOFError` at end of data.  Fuel-based;
the wrapper supplies `data.length + 1`, which cannot be exhausted because
every step advances the position by two. -/
def readWcharAux (data : List ℕ) : ℕ → ℕ → Except PyErr (List ℕ × ℕ)
  | 0, _ => .error .outOfFuel
  | fuel + 1, pos =>
    fhBind (readExact data 2 pos) fun ch p =>
      if ch = [0, 0] then .ok ([], p)
      else fhBind (readWcharAux data fuel p) fun rest p2 => .ok (leNat ch :: rest, p2)

/-- `_read_wchar_string`: a NUL-terminated UTF-16LE string read from the
current position. -/
def readWcharString (data : List ℕ) (pos : ℕ) : Except PyErr (List Char × ℕ) :=
  fhBind (readWcharAux data (data.length + 1) pos) fun units p =>
    .ok (utf16DecodeUnits units, p)

/-! ### Binary-blob presentation helpers -/

/-- Lowercase hex digit. -/
def hexDigitChar (n : ℕ) : Char :=
  if n < 10 then Char.ofNat ('0'.toNat + n) else Char.ofNat ('a'.toNat + (n - 10))

/-- Two lowercase hex digits of a byte (`bytes.hex()` per byte). -/
def byteHex (b : ℕ) : List Char := [hexDigitChar (b / 16), hexDigitChar (b % 16)]

/-- `bytes.hex()`. -/
def bytesHex (bs : List ℕ) : List Char := bs.flatMap byteHex

/-- `str(uuid.UUID(bytes_le=blob))` for a 16-byte blob: the first three
fields are byte-swapped from little-endian, the final eight bytes are in
order; canonical lowercase `8-4-4-4-12` form. -/
def guidStrOfBytesLE (bs : List ℕ) : List Char :=
  let b := fun i => bs.getD i 0
  bytesHex [b 3, b 2, b 1, b 0] ++ ['-'] ++ bytesHex [b 5, b 4] ++ ['-'] ++
    bytesHex [b 7, b 6] ++ ['-'] ++ bytesHex [b 8, b 9] ++ ['-'] ++
    bytesHex [b 10, b 11, b 12, b 13, b 14, b 15]

/-- Decimal digits of a natural number (`str(n)` for `n ≥ 0`). -/
def natDecimal (n : ℕ) : List Char :=
  Nat.toDigits 10 n

/-- `str(n)` for a Python int. -/
def intDecimal (n : ℤ) : List Char :=
  if n < 0 then '-' :: natDecimal n.natAbs else natDecimal n.toNat

/-- `_parse_sid`: binary SID to its standard textual form; blobs shorter
than 8 bytes are presented as hex. -/
def parseSid (data : List ℕ) : List Char :=
  if data.length < 8 then bytesHex data
  else
    let revision := data.getD 0 0
    let subAuthorityCount := data.getD 1 0
    let identifierAuthority :=
      ((data.drop 2).take 6).foldl (fun acc b => acc * 256 + b) 0
    let subAuthorities :=
      (List.range subAuthorityCount).filterMap fun i =>
        if 8 + i * 4 + 4 ≤ data.length then
          some (leNat ((data.drop (8 + i * 4)).take 4))
        else none
    s2c "S-" ++ natDecimal revision ++ ['-'] ++ natDecimal identifierAuthority ++
      (subAuthorities.flatMap fun s => '-' :: natDecimal s)

/-- `str.endswith` on character lists. -/
def listEndsWith (s suf : List Char) : Bool := suf.isSuffixOf s

/-- `_decode_octet_string`: GUID presentation for 16-byte blobs of
properties whose lowercased name ends in "guid" (or equals "objectguid"),
SID presentation for "objectsid", lowercase hex otherwise; raw mode keeps
the bytes. -/
def decodeOctetString (propName : List Char) (blob : List ℕ) (raw : Bool) : PyValue :=
  if raw then .bytes blob
  else
    let lowName := pyLowerStr propName
    if blob.length = 16 ∧ (listEndsWith lowName (s2c "guid") ∨ lowName = s2c "objectguid")
    then .str (guidStrOfBytesLE blob)
    else if lowName = s2c "objectsid" then .str (parseSid blob)
    else .str (bytesHex blob)

/-- `_represent_bytes`. -/
def representBytes (data : List ℕ) (raw : Bool) : PyValue :=
  if raw then .bytes data else .str (bytesHex data)

/-! ### Calendar arithmetic for `ADSTYPE_UTC_TIME`

`_read_values` constructs `datetime.datetime(year, month, day, hour,
minute, second, tzinfo=utc)` and takes `int(dt.timestamp())`; a
`ValueError` from out-of-range fields is caught and presented as 0. -/

/-- Is `y` a (proleptic Gregorian) leap year? -/
def isLeapYear (y : ℕ) : Bool := y % 4 = 0 ∧ (y % 100 ≠ 0 ∨ y % 400 = 0)

/-- Days in a month. -/
def daysInMonth (y m : ℕ) : ℕ :=
  if m = 2 then (if isLeapYear y then 29 else 28)
  else if m = 4 ∨ m = 6 ∨ m = 9 ∨ m = 11 then 30 else 31

/-- Days from the civil epoch 1970-01-01 to `y-m-d` (standard
days-from-civil algorithm, valid for the `datetime` year range). -/
def daysFromCivil (y m d : ℕ) : ℤ :=
  let y' : ℤ := if m ≤ 2 then (y : ℤ) - 1 else (y : ℤ)
  let era : ℤ := (if 0 ≤ y' then y' else y' - 399) / 400
  let yoe : ℤ := y' - era * 400
  let mp : ℤ := ((m : ℤ) + 9) % 12
  let doy : ℤ := (153 * mp + 2) / 5 + (d : ℤ) - 1
  let doe : ℤ := yoe * 365 + yoe / 4 - yoe / 100 + doy
  era * 146097 + doe - 719468

/-- `int(datetime(y, mo, d, h, mi, s, tzinfo=utc).timestamp())`, or `none`
when the constructor raises `ValueError`. -/
def utcTimestamp (y mo d h mi s : ℕ) : Option ℤ :=
  if 1 ≤ y ∧ y ≤ 9999 ∧ 1 ≤ mo ∧ mo ≤ 12 ∧ 1 ≤ d ∧ d ≤ daysInMonth y mo ∧
      h ≤ 23 ∧ mi ≤ 59 ∧ s ≤ 59 then
    some (daysFromCivil y mo d * 86400 + (h : ℤ) * 3600 + (mi : ℤ) * 60 + (s : ℤ))
  else none

/-! ### `dat_reader.py`: data model -/

/-- ADSI type constants used by `_read_values`. -/
def ADSTYPE_DN_STRING : ℕ := 1
def ADSTYPE_CASE_EXACT_STRING : ℕ := 2
def ADSTYPE_CASE_IGNORE_STRING : ℕ := 3
def ADSTYPE_PRINTABLE_STRING : ℕ := 4
def ADSTYPE_NUMERIC_STRING : ℕ := 5
def ADSTYPE_BOOLEAN : ℕ := 6
def ADSTYPE_INTEGER : ℕ := 7
def ADSTYPE_OCTET_STRING : ℕ := 8
def ADSTYPE_UTC_TIME : ℕ := 9
def ADSTYPE_LARGE_INTEGER : ℕ := 10
def ADSTYPE_OBJECT_CLASS : ℕ := 12
def ADSTYPE_NT_SECURITY_DESCRIPTOR : ℕ := 25

/-- `PropertyDefinition` (the two GUIDs are kept as their 16 stored
bytes; the sources wrap them in `uuid.UUID(bytes_le=...)` objects that are
never consulted afterwards). -/
structure PropertyDefinition where
  index : ℕ
  name : List Char
  adsType : ℕ
  distinguishedName : List Char
  schemaIdGuid : List ℕ
  attributeSecurityGuid : List ℕ
deriving DecidableEq, Repr

/-- `SnapshotHeader`; `capturedAt` is in microseconds since 1601-01-01 UTC
(see `windowsFiletimeToDatetime`). -/
structure SnapshotHeader where
  signature : List Char
  capturedAt : ℤ
  description : List Char
  server : List Char
  numObjects : ℕ
  numAttributes : ℕ
  mappingOffset : ℕ
  fileSize : ℕ
deriving DecidableEq, Repr

/-- Insertion-ordered dictionary with Python `dict` semantics: an insert
for an existing key overwrites in place, otherwise appends. -/
def dictInsert (d : List (List Char × ℕ)) (k : List Char) (v : ℕ) :
    List (List Char × ℕ) :=
  if (d.find? (fun p => decide (p.1 = k))).isSome then
    d.map (fun p => if p.1 = k then (k, v) else p)
  else d ++ [(k, v)]

/-- Dictionary lookup (`dict.get`). -/
def dictGet (d : List (List Char × ℕ)) (k : List Char) : Option ℕ :=
  (d.find? (fun p => decide (p.1 = k))).map (fun p => p.2)

/-- The name → index map built by `_parse_properties`: for each property in
order, insert its lowercased name mapped to its position (`by_name[
prop_name.lower()] = idx`; a later duplicate lowercased name overwrites an
earlier one). -/
def buildByNameGo : List (List Char) → ℕ → List (List Char × ℕ) →
    List (List Char × ℕ)
  | [], _, d => d
  | nm :: rest, idx, d => buildByNameGo rest (idx + 1) (dictInsert d (pyLowerStr nm) idx)

/-- See `buildByNameGo`. -/
def buildByName (names : List (List Char)) : List (List Char × ℕ) :=
  buildByNameGo names 0 []

/-- `SnapshotReader` state after `__init__`: the raw byte source, whether
it is a memory map, and the parsed header, schema and object offsets. -/
structure SnapshotReader where
  fh : List ℕ
  useMmap : Bool
  header : SnapshotHeader
  properties : List PropertyDefinition
  propertyByName : List (List Char × ℕ)
  objectOffsets : List ℕ
deriving DecidableEq, Repr

/-- `SnapshotReader.get_property`: look the lowercased name up in the
name map and index into the property list (the subscript would raise
`IndexError` for a corrupt map; parsed readers always hold valid
indices, so the model returns the optional element). -/
def getProperty (r : SnapshotReader) (name : List Char) : Option PropertyDefinition :=
  match dictGet r.propertyByName (pyLowerStr name) with
  | none => none
  | some idx => r.properties[idx]?

/-- `SnapshotEntry` state after `_read_object_header`.  The two per-entry
value caches are omitted: reads are pure in this model, so the cache is
observationally transparent. -/
structure SnapshotEntry where
  offset : ℕ
  size : ℕ
  mapping : List (ℕ × ℤ)
deriving DecidableEq, Repr

/-- `SnapshotEntry.__init__` / `_read_object_header`: seek to the record,
read the u32 record size, the u32 pair count and that many
(u32 property-index, i32 relative-offset) pairs. -/
def SnapshotEntry.init (r : SnapshotReader) (offset : ℕ) :
    Except PyErr SnapshotEntry :=
  match
    fhBind (seekFh r.useMmap r.fh (offset : ℤ) 0) fun _ p =>
    fhBind (readUint32 r.fh p) fun size p =>
    fhBind (readUint32 r.fh p) fun tableSize p =>
    fhBind (repeatFh tableSize (fun q =>
        fhBind (readUint32 r.fh q) fun attrIndex q2 =>
        fhBind (readInt32 r.fh q2) fun attrOffset q3 =>
          .ok ((attrIndex, attrOffset), q3)) p) fun mapping p2 =>
      .ok ((size, mapping), p2)
  with
  | .error e => .error e
  | .ok ((size, mapping), _) =>
    .ok { offset := offset, size := size, mapping := mapping }

/-- `SnapshotEntry._read_values`: decode the typed multi-valued payload of
one attribute.  `attrOffset` is the i32 from the mapping pair, relative to
the record start. -/
def readValues (r : SnapshotReader) (prop : PropertyDefinition)
    (entryOffset : ℕ) (attrOffset : ℤ) (raw : Bool) :
    Except PyErr (List PyValue) :=
  let data := r.fh
  let fileAttrOffset : ℤ := (entryOffset : ℤ) + attrOffset
  let run :=
    fhBind (seekFh r.useMmap data fileAttrOffset 0) fun _ p =>
    fhBind (readUint32 data p) fun numValues p =>
    if numValues = 0 then .ok (([] : List PyValue), p)
    else if (prop.adsType = ADSTYPE_DN_STRING ∨
        prop.adsType = ADSTYPE_CASE_EXACT_STRING ∨
        prop.adsType = ADSTYPE_CASE_IGNORE_STRING ∨
        prop.adsType = ADSTYPE_PRINTABLE_STRING ∨
        prop.adsType = ADSTYPE_NUMERIC_STRING ∨
        prop.adsType = ADSTYPE_OBJECT_CLASS) then
      fhBind (repeatFh numValues (readInt32 data) p) fun offsets p2 =>
      mapFh offsets (fun rel q =>
        fhBind (seekFh r.useMmap data (fileAttrOffset + rel) q) fun _ q2 =>
        fhBind (readWcharString data q2) fun s q3 =>
          .ok (PyValue.str s, q3)) p2
    else if prop.adsType = ADSTYPE_OCTET_STRING then
      fhBind (repeatFh numValues (readUint32 data) p) fun lengths p2 =>
      mapFh lengths (fun len q =>
        fhBind (readExact data len q) fun blob q2 =>
          .ok (decodeOctetString prop.name blob raw, q2)) p2
    else if prop.adsType = ADSTYPE_BOOLEAN then
      repeatFh numValues (fun q =>
        fhBind (readUint32 data q) fun v q2 =>
          .ok (PyValue.bool (v ≠ 0), q2)) p
    else if prop.adsType = ADSTYPE_INTEGER then
      repeatFh numValues (fun q =>
        fhBind (readUint32 data q) fun v q2 =>
          .ok (PyValue.int (v : ℤ), q2)) p
    else if prop.adsType = ADSTYPE_LARGE_INTEGER then
      repeatFh numValues (fun q =>
        fhBind (readInt64 data q) fun v q2 =>
          .ok (PyValue.int v, q2)) p
    else if prop.adsType = ADSTYPE_UTC_TIME then
      repeatFh numValues (fun q =>
        fhBind (readUint16 data q) fun year q2 =>
        fhBind (readUint16 data q2) fun month q3 =>
        fhBind (readUint16 data q3) fun _dayOfWeek q4 =>
        fhBind (readUint16 data q4) fun day q5 =>
        fhBind (readUint16 data q5) fun hour q6 =>
        fhBind (readUint16 data q6) fun minute q7 =>
        fhBind (readUint16 data q7) fun second q8 =>
        fhBind (readUint16 data q8) fun _milliseconds q9 =>
          .ok (PyValue.int ((utcTimestamp year month day hour minute second).getD 0), q9)) p
    else
      -- `ADSTYPE_NT_SECURITY_DESCRIPTOR` and the catch-all share the
      -- length-prefixed-blob decoding.
      repeatFh numValues (fun q =>
        fhBind (readUint32 data q) fun len q2 =>
        fhBind (readExact data len q2) fun blob q3 =>
          .ok (representBytes blob raw, q3)) p
  match run with
  | .error e => .error e
  | .ok (values, _) => .ok values

/-- `SnapshotEntry.get_attribute_values`: resolve the property (raising
`KeyError` when unknown), find the first mapping pair carrying its index
(raising `KeyError` when absent), then decode the payload.  The per-entry
cache is observationally transparent and omitted. -/
def getAttributeValues (r : SnapshotReader) (e : SnapshotEntry)
    (attrName : List Char) (raw : Bool) : Except PyErr (List PyValue) :=
  match getProperty r attrName with
  | none => .error .keyError
  | some prop =>
    match e.mapping.find? (fun pr => decide (pr.1 = prop.index)) with
    | none => .error .keyError
    | some (_, attrOffset) => readValues r prop e.offset attrOffset raw

/-- `SnapshotEntry.iter_attributes`: for each mapping pair, subscript the
property list with the stored index (an out-of-range index raises
`IndexError`), then fetch the values by name, skipping pairs whose fetch
raises `KeyError`. -/
def iterAttributes (r : SnapshotReader) (e : SnapshotEntry) :
    Except PyErr (List (List Char × List PyValue)) :=
  go e.mapping
where
  go : List (ℕ × ℤ) → Except PyErr (List (List Char × List PyValue))
  | [] => .ok []
  | (attrIndex, _) :: rest =>
    match r.properties[attrIndex]? with
    | none => .error .indexError
    | some prop =>
      match getAttributeValues r e prop.name false with
      | .error .keyError => go rest
      | .error err => .error err
      | .ok values =>
        match go rest with
        | .error err => .error err
        | .ok tail => .ok ((prop.name, values) :: tail)

/-- The collapse policy of `to_dict` (`_collapse_values`). -/
inductive CollapsedValue where
  | emptyList
  | scalar (v : PyValue)
  | multi (vs : List PyValue)
deriving DecidableEq, Repr

/-- `_collapse_values`. -/
def collapseValues : List PyValue → CollapsedValue
  | [] => .emptyList
  | [v] => .scalar v
  | vs => .multi vs

/-- Insertion-ordered result dictionary for `to_dict`. -/
def resultInsert (d : List (List Char × CollapsedValue)) (k : List Char)
    (v : CollapsedValue) : List (List Char × CollapsedValue) :=
  if (d.find? (fun p => decide (p.1 = k))).isSome then
    d.map (fun p => if p.1 = k then (k, v) else p)
  else d ++ [(k, v)]

/-- `SnapshotEntry.to_dict`:  with a (truthy, i.e. non-empty) selection,
resolve each requested name, skip unknown names and absent attributes;
without one, walk `iter_attributes`. -/
def toDict (r : SnapshotReader) (e : SnapshotEntry)
    (attributes : Option (List (List Char))) :
    Except PyErr (List (List Char × CollapsedValue)) :=
  match attributes with
  | some (a :: rest) => goSel (a :: rest) []
  | _ =>
    match iterAttributes r e with
    | .error err => .error err
    | .ok items =>
      .ok (items.foldl (fun d item => resultInsert d item.1 (collapseValues item.2)) [])
where
  goSel : List (List Char) → List (List Char × CollapsedValue) →
      Except PyErr (List (List Char × CollapsedValue))
  | [], acc => .ok acc
  | name :: rest, acc =>
    match getProperty r name with
    | none => goSel rest acc
    | some prop =>
      match getAttributeValues r e prop.name false with
      | .error .keyError => goSel rest acc
      | .error err => .error err
      | .ok values => goSel rest (resultInsert acc prop.name (collapseValues values))

/-! ### `dat_reader.py`: opening a snapshot -/

/-- `SnapshotReader._parse_header`: the fixed 1086-byte region from file
offset 0. -/
def parseHeader (data : List ℕ) : Except PyErr (SnapshotHeader × ℕ) :=
  fhBind (readExact data 10 0) fun sigBytes p =>
  fhBind (readInt32 data p) fun _marker p =>
  fhBind (readExact data 8 p) fun filetimeBytes p =>
  fhBind (readExact data (260 * 2) p) fun descriptionBytes p =>
  fhBind (readExact data (260 * 2) p) fun serverBytes p =>
  fhBind (readUint32 data p) fun numObjects p =>
  fhBind (readUint32 data p) fun numAttributes p =>
  fhBind (readUint32 data p) fun fileoffsetLow p =>
  fhBind (readUint32 data p) fun fileoffsetHigh p =>
  fhBind (readUint32 data p) fun _fileoffsetEnd p =>
  fhBind (readInt32 data p) fun _unk p =>
    .ok
      ({ signature := asciiIgnoreToStr sigBytes
         capturedAt := windowsFiletimeToDatetime (leNat filetimeBytes)
         description := utf16leToStr descriptionBytes
         server := utf16leToStr serverBytes
         numObjects := numObjects
         numAttributes := numAttributes
         mappingOffset := (fileoffsetHigh <<< 32) ||| fileoffsetLow
         fileSize := data.length }, p)

/-- One iteration of the `_parse_properties` loop: the reads for a single
property record, yielding a `PropertyDefinition` whose `index` is the
supplied loop counter. -/
def parseOneProperty (data : List ℕ) (idx : ℕ) (pos : ℕ) :
    Except PyErr (PropertyDefinition × ℕ) :=
  fhBind (readUint32 data pos) fun lenPropName p =>
  fhBind (readExact data lenPropName p) fun nameBytes p =>
  fhBind (readInt32 data p) fun _unk1 p =>
  fhBind (readUint32 data p) fun adsType p =>
  fhBind (readUint32 data p) fun lenDn p =>
  fhBind (readExact data lenDn p) fun dnBytes p =>
  fhBind (readExact data 16 p) fun schemaGuid p =>
  fhBind (readExact data 16 p) fun attributeGuid p =>
  fhBind (readExact data 4 p) fun _blob p =>
    .ok
      ({ index := idx, name := utf16leToStr nameBytes, adsType := adsType
         distinguishedName := utf16leToStr dnBytes
         schemaIdGuid := schemaGuid, attributeSecurityGuid := attributeGuid }, p)

/-- The loop of `SnapshotReader._parse_properties`: parse `count`
property records, appending each `PropertyDefinition` and inserting its
lowercased name into the name map. -/
def parsePropsLoop (data : List ℕ) :
    ℕ → ℕ → List PropertyDefinition → List (List Char × ℕ) → ℕ →
    Except PyErr ((List PropertyDefinition × List (List Char × ℕ)) × ℕ)
  | 0, _, accProps, accDict, pos => .ok ((accProps, accDict), pos)
  | count + 1, idx, accProps, accDict, pos =>
    fhBind (parseOneProperty data idx pos) fun prop p =>
      parsePropsLoop data count (idx + 1) (accProps ++ [prop])
        (dictInsert accDict (pyLowerStr prop.name) idx) p

/-- `SnapshotReader._parse_properties`: seek to the mapping offset, read
the u32 property count and parse that many records. -/
def parseProperties (data : List ℕ) (useMmap : Bool) (mappingOffset : ℕ) :
    Except PyErr ((List PropertyDefinition × List (List Char × ℕ)) × ℕ) :=
  fhBind (seekFh useMmap data (mappingOffset : ℤ) 0) fun _ p =>
  fhBind (readUint32 data p) fun numProperties p =>
  parsePropsLoop data numProperties 0 [] [] p

/-- The loop of `SnapshotReader._parse_object_offsets`: up to
`num_objects` times, remember the position, read a u32 record size
(stopping early on a short read), append the position and seek past the
record. -/
def parseOffsetsLoop (data : List ℕ) (useMmap : Bool) :
    ℕ → List ℕ → ℕ → Except PyErr (List ℕ × ℕ)
  | 0, acc, pos => .ok (acc, pos)
  | count + 1, acc, pos =>
    let (sizeData, p) := readUpTo data 4 pos
    if sizeData.length ≠ 4 then .ok (acc, p)
    else
      let objSize := leNat sizeData
      fhBind (seekFh useMmap data ((pos : ℤ) + objSize) p) fun _ p2 =>
        parseOffsetsLoop data useMmap count (acc ++ [pos]) p2

/-- `SnapshotReader._parse_object_offsets`. -/
def parseObjectOffsets (data : List ℕ) (useMmap : Bool) (numObjects : ℕ) :
    Except PyErr (List ℕ × ℕ) :=
  fhBind (seekFh useMmap data 0x43E 0) fun _ p =>
  parseOffsetsLoop data useMmap numObjects [] p

/-- `SnapshotReader.__init__`: `none` stands for a path that is not a
regular file (`FileNotFoundError`); with `use_mmap` an empty file cannot
be mapped (`ValueError`); then the header, the schema and the object
offset index are parsed in order. -/
def snapshotReaderInit (file : Option (List ℕ)) (useMmap : Bool) :
    Except PyErr SnapshotReader :=
  match file with
  | none => .error .fileNotFound
  | some data =>
    if useMmap ∧ data.length = 0 then .error .mmapEmpty
    else
      match parseHeader data with
      | .error e => .error e
      | .ok (header, _) =>
        match parseProperties data useMmap header.mappingOffset with
        | .error e => .error e
        | .ok ((props, byName), _) =>
          match parseObjectOffsets data useMmap header.numObjects with
          | .error e => .error e
          | .ok (offsets, _) =>
            .ok { fh := data, useMmap := useMmap, header := header,
                  properties := props, propertyByName := byName,
                  objectOffsets := offsets }

/-! ### `filter_engine.py`: filter values and trees -/

/-- UTF-8 decoding with Python's strict validation (`bytes.decode("utf-8")`
succeeds iff the bytes are well-formed UTF-8: no overlong forms, no
surrogates, no values beyond U+10FFFF).  Fuel-based; the wrapper supplies
the byte count plus one. -/
def utf8DecodeAux : ℕ → List ℕ → Option (List Char)
  | 0, _ => none
  | _ + 1, [] => some []
  | fuel + 1, b :: rest =>
    let cont := fun b2 => 0x80 ≤ b2 ∧ b2 ≤ 0xBF
    if b ≤ 0x7F then
      (utf8DecodeAux fuel rest).map (fun cs => Char.ofNat b :: cs)
    else if 0xC2 ≤ b ∧ b ≤ 0xDF then
      match rest with
      | b2 :: rest2 =>
        if cont b2 then
          (utf8DecodeAux fuel rest2).map
            (fun cs => Char.ofNat ((b - 0xC0) * 64 + (b2 - 0x80)) :: cs)
        else none
      | _ => none
    else if 0xE0 ≤ b ∧ b ≤ 0xEF then
      match rest with
      | b2 :: b3 :: rest2 =>
        let lo2 := if b = 0xE0 then 0xA0 else 0x80
        let hi2 := if b = 0xED then 0x9F else 0xBF
        if (lo2 ≤ b2 ∧ b2 ≤ hi2) ∧ cont b3 then
          (utf8DecodeAux fuel rest2).map
            (fun cs =>
              Char.ofNat ((b - 0xE0) * 4096 + (b2 - 0x80) * 64 + (b3 - 0x80)) :: cs)
        else none
      | _ => none
    else if 0xF0 ≤ b ∧ b ≤ 0xF4 then
      match rest with
      | b2 :: b3 :: b4 :: rest2 =>
        let lo2 := if b = 0xF0 then 0x90 else 0x80
        let hi2 := if b = 0xF4 then 0x8F else 0xBF
        if (lo2 ≤ b2 ∧ b2 ≤ hi2) ∧ cont b3 ∧ cont b4 then
          (utf8DecodeAux fuel rest2).map
            (fun cs =>
              Char.ofNat ((b - 0xF0) * 262144 + (b2 - 0x80) * 4096 +
                (b3 - 0x80) * 64 + (b4 - 0x80)) :: cs)
        else none
      | _ => none
    else none

/-- `bytes.decode("utf-8")`, `none` on `UnicodeDecodeError`. -/
def utf8Decode (bs : List ℕ) : Option (List Char) :=
  utf8DecodeAux (bs.length + 1) bs

/-- `FilterValue.as_str`: UTF-8 when valid, else Latin-1 (which maps each
byte to the code point of the same value and never fails, so the
`errors="ignore"` in the source is moot). -/
def filterValueAsStr (raw : List ℕ) : List Char :=
  match utf8Decode raw with
  | some s => s
  | none => raw.map Char.ofNat

/-- `SubstringPattern`: optional initial anchor, interior fragments,
optional final anchor. -/
structure SubstringPattern where
  initial : Option (List Char)
  any : List (List Char)
  final : Option (List Char)
deriving DecidableEq, Repr

/-- `SubstringPattern.normalised`. -/
def SubstringPattern.normalised (p : SubstringPattern) (casefold : Bool) :
    SubstringPattern :=
  if casefold then
    { initial := p.initial.map pyCaseFoldStr
      any := p.any.map pyCaseFoldStr
      final := p.final.map pyCaseFoldStr }
  else p

/-- `str.startswith` on character lists. -/
def listStartsWith (s pre : List Char) : Bool := pre.isPrefixOf s

/-- Python `str.find(sub, start)`: the first index `i ≥ start` at which
`sub` occurs, as an option. -/
def strFindFrom (s sub : List Char) (start : ℕ) : Option ℕ :=
  (List.range (s.length + 1)).find?
    (fun i => decide (start ≤ i) && sub.isPrefixOf (s.drop i))

/-- The interior-fragment scan of `SubstringPattern.matches`. -/
def matchFrags (candidate : List Char) : List (List Char) → ℕ → Option ℕ
  | [], pos => some pos
  | seg :: rest, pos =>
    match strFindFrom candidate seg pos with
    | none => none
    | some idx => matchFrags candidate rest (idx + seg.length)

/-- `SubstringPattern.matches`. -/
def SubstringPattern.matches (p : SubstringPattern) (candidate : List Char) :
    Bool :=
  let pos0 : Option ℕ :=
    match p.initial with
    | some ini => if listStartsWith candidate ini then some ini.length else none
    | none => some 0
  match pos0 with
  | none => false
  | some pos =>
    match matchFrags candidate p.any pos with
    | none => false
    | some _ =>
      match p.final with
      | some fin => listEndsWith candidate fin
      | none => true

/-- The filter tree (`AndNode`, `OrNode`, `NotNode`, `PresenceNode`,
`EqualityNode`, `SubstringNode`); an equality carries the `FilterValue`'s
raw bytes. -/
inductive FilterNode where
  | and (nodes : List FilterNode)
  | or (nodes : List FilterNode)
  | not (node : FilterNode)
  | presence (attr : List Char)
  | equality (attr : List Char) (value : List ℕ)
  | substring (attr : List Char) (pattern : SubstringPattern)

/-- `EvaluationContext`: the decoder, the current entry and the
case-insensitivity flag. -/
structure EvaluationContext where
  reader : SnapshotReader
  entry : SnapshotEntry
  ignoreCase : Bool

/-- `_extract_rdn_value`: the text after the first `=` of the first
comma-separated component, stripped. -/
def extractRdnValue (dn : List Char) : Option (List Char) :=
  if ¬ dn.contains '=' then none
  else
    let first := dn.takeWhile (fun c => c ≠ ',')
    if ¬ first.contains '=' then none
    else some (pyStrip ((first.dropWhile (fun c => c ≠ '=')).drop 1))

/-- `str(value)` for a decoded attribute value. -/
def pyStrOfValue : PyValue → List Char
  | .str s => s
  | .bool b => if b then s2c "True" else s2c "False"
  | .int n => intDecimal n
  | .bytes bs => pyBytesRepr bs
where
  /-- Python `repr` of a bytes object (`str(b'..')`). -/
  pyBytesRepr (bs : List ℕ) : List Char :=
    let quote : Char :=
      if bs.contains 0x27 ∧ ¬ bs.contains 0x22 then '"' else '\''
    let esc := fun (b : ℕ) =>
      if b = 0x5C then ['\\', '\\']
      else if b = quote.toNat then ['\\', quote]
      else if b = 0x09 then ['\\', 't']
      else if b = 0x0A then ['\\', 'n']
      else if b = 0x0D then ['\\', 'r']
      else if 0x20 ≤ b ∧ b ≤ 0x7E then [Char.ofNat b]
      else '\\' :: 'x' :: byteHex b
    'b' :: quote :: bs.flatMap esc ++ [quote]

/-- `EqualityNode._prepare_value`: type-directed conversion of the filter
text against the first stored value.  Note the `isinstance` order: `bool`
first (a Python `bool` is also an `int`), then `int`, then `bytes`, else
string. -/
def prepareValue (sampleValues : List PyValue) (needle : List ℕ) :
    Option PyValue :=
  match sampleValues.head? with
  | some (.bool _) =>
    let raw := pyLowerStr (filterValueAsStr needle)
    if raw = s2c "true" ∨ raw = s2c "1" then some (.bool true)
    else if raw = s2c "false" ∨ raw = s2c "0" then some (.bool false)
    else none
  | some (.int _) => (pyIntBase0 (filterValueAsStr needle)).map PyValue.int
  | some (.bytes _) => some (.bytes needle)
  | _ => some (.str (pyCaseFoldStr (filterValueAsStr needle)))

/-- `int(x)` view used by `isinstance(x, int)` (true for Python bools). -/
def intOfValue : PyValue → Option ℤ
  | .int n => some n
  | .bool b => some (if b then 1 else 0)
  | _ => none

/-- `EqualityNode._compare`.  The branches mirror the source's
`isinstance` tests: both bools, both ints (bools count as ints), both
bytes, otherwise case-folded string comparison with the RDN-value
fallback. -/
def compareVals (value : PyValue) (needle : Option PyValue) : Bool :=
  match needle with
  | none => false
  | some needle =>
    match value, needle with
    | .bool a, .bool b => a = b
    | _, _ =>
      match intOfValue value, intOfValue needle with
      | some a, some b => a = b
      | _, _ =>
        match value, needle with
        | .bytes a, .bytes b => a = b
        | _, _ =>
          let valueStr := pyStrOfValue value
          let valueNorm := pyCaseFoldStr valueStr
          let needleNorm := pyCaseFoldStr (pyStrOfValue needle)
          if valueNorm = needleNorm then true
          else
            match extractRdnValue valueStr with
            | some rdn => pyCaseFoldStr rdn = needleNorm
            | none => false

/-- The value-level core of `EqualityNode.evaluate`: prepare the needle
against the first stored value, then accept iff any stored value compares
equal. -/
def equalityMatches (values : List PyValue) (needle : List ℕ) : Bool :=
  match prepareValue values needle with
  | none => false
  | some typed => values.any (fun v => compareVals v (some typed))

/-- `PresenceNode.evaluate`. -/
def presenceEvaluate (ctx : EvaluationContext) (attr : List Char) :
    Except PyErr Bool :=
  match getProperty ctx.reader attr with
  | none => .ok false
  | some prop =>
    match getAttributeValues ctx.reader ctx.entry prop.name false with
    | .error .keyError => .ok false
    | .error e => .error e
    | .ok values => .ok (!values.isEmpty)

/-- `EqualityNode.evaluate`. -/
def equalityEvaluate (ctx : EvaluationContext) (attr : List Char)
    (value : List ℕ) : Except PyErr Bool :=
  match getProperty ctx.reader attr with
  | none => .ok false
  | some prop =>
    match getAttributeValues ctx.reader ctx.entry prop.name false with
    | .error .keyError => .ok false
    | .error e => .error e
    | .ok values => .ok (equalityMatches values value)

/-- `SubstringNode.evaluate`: the pattern is normalised with
`casefold=True` unconditionally; every value is coerced to text and
case-folded. -/
def substringEvaluate (ctx : EvaluationContext) (attr : List Char)
    (pat : SubstringPattern) : Except PyErr Bool :=
  match getProperty ctx.reader attr with
  | none => .ok false
  | some prop =>
    match getAttributeValues ctx.reader ctx.entry prop.name false with
    | .error .keyError => .ok false
    | .error e => .error e
    | .ok values =>
      if values.isEmpty then .ok false
      else
        let pattern := pat.normalised true
        .ok (values.any (fun v =>
          let s := match v with | .str s => s | other => pyStrOfValue other
          pattern.matches (pyCaseFoldStr s)))

/-- `FilterNode.evaluate`.  The `and`/`or` cases realise Python's
short-circuiting `all`/`any` over the generator of child evaluations by
peeling one child at a time. -/
def evaluate : FilterNode → EvaluationContext → Except PyErr Bool
  | .and [], _ => .ok true
  | .and (n :: rest), ctx =>
    match evaluate n ctx with
    | .error e => .error e
    | .ok true => evaluate (.and rest) ctx
    | .ok false => .ok false
  | .or [], _ => .ok false
  | .or (n :: rest), ctx =>
    match evaluate n ctx with
    | .error e => .error e
    | .ok false => evaluate (.or rest) ctx
    | .ok true => .ok true
  | .not n, ctx =>
    match evaluate n ctx with
    | .error e => .error e
    | .ok b => .ok (!b)
  | .presence attr, ctx => presenceEvaluate ctx attr
  | .equality attr value, ctx => equalityEvaluate ctx attr value
  | .substring attr pat, ctx => substringEvaluate ctx attr pat
termination_by node _ => sizeOf node
decreasing_by all_goals simp_wf <;> omega

/-! ### `filter_engine.py`: the recursive-descent parser

The Python `Parser` walks an immutable string with a cursor; the model
consumes a `List Char` instead, which is observationally the same (the
remaining input is the suffix from the cursor). -/

/-- `_skip_spaces`. -/
def skipSpaces (s : List Char) : List Char := s.dropWhile pyIsSpace

/-- `_peek`: the next character, or `FilterSyntaxError` at end of input. -/
def peekChar (s : List Char) : Except PyErr Char :=
  match s with
  | [] => .error .filterSyntaxError
  | c :: _ => .ok c

/-- `_expect` for a single-character token: `_peek` must equal the token,
which is then consumed. -/
def expectChar (tok : Char) (s : List Char) : Except PyErr (List Char) :=
  match s with
  | [] => .error .filterSyntaxError
  | c :: rest => if c = tok then .ok rest else .error .filterSyntaxError

/-- The characters at which `_parse_attribute` stops. -/
def attrStopChar (c : Char) : Bool :=
  c = '=' ∨ c = '~' ∨ c = '>' ∨ c = '<' ∨ c = '('

/-- `_parse_attribute`: consume up to the first stop character (or the
end of input); an empty take is a `FilterSyntaxError`, the result is
stripped. -/
def parseAttribute (s : List Char) : Except PyErr (List Char × List Char) :=
  let taken := s.takeWhile (fun c => !attrStopChar c)
  let rest := s.dropWhile (fun c => !attrStopChar c)
  if taken.isEmpty then .error .filterSyntaxError
  else .ok (pyStrip taken, rest)

/-- `_parse_escape`: with fewer than two characters remaining raise
`FilterSyntaxError`; otherwise take two characters and parse them with
`int(·, 16)`, raising `FilterSyntaxError` when that fails. -/
def parseEscape (s : List Char) : Except PyErr (ℤ × List Char) :=
  if s.length < 2 then .error .filterSyntaxError
  else
    match pyIntBase16 (s.take 2) with
    | some n => .ok (n, s.drop 2)
    | none => .error .filterSyntaxError

/-- `bytearray.append`: the value must be a byte. -/
def byteAppend (buf : List ℕ) (n : ℤ) : Except PyErr (List ℕ) :=
  if 0 ≤ n ∧ n < 256 then .ok (buf ++ [n.toNat]) else .error .byteRange

/-- The loop of `_parse_value_segments`: scan the value, splitting at
unescaped `*`, decoding `\xx` escapes into bytes and appending ordinary
characters as `ord(ch)` (which, like the source's `bytearray.append`,
fails for characters above U+00FF).  Stops before an unconsumed `)`;
running out of input is a `FilterSyntaxError`.  Fuel-based: the wrapper
supplies the input length plus one, which cannot be exhausted since every
step consumes at least one character. -/
def parseValueSegmentsAux :
    ℕ → List Char → List ℕ → List (List ℕ) → ℕ →
    Except PyErr ((List (List ℕ) × ℕ) × List Char)
  | 0, _, _, _, _ => .error .outOfFuel
  | fuel + 1, s, buf, segs, stars =>
    match s with
    | [] => .error .filterSyntaxError
    | c :: rest =>
      if c = ')' then .ok ((segs ++ [buf], stars), c :: rest)
      else if c = '*' then parseValueSegmentsAux fuel rest [] (segs ++ [buf]) (stars + 1)
      else if c = '\\' then
        exBind (parseEscape rest) fun pr =>
        exBind (byteAppend buf pr.1) fun buf2 =>
        parseValueSegmentsAux fuel pr.2 buf2 segs stars
      else
        exBind (byteAppend buf (c.toNat : ℤ)) fun buf2 =>
        parseValueSegmentsAux fuel rest buf2 segs stars

/-- `_parse_value_segments`: returns the list of escape-decoded segments,
the number of unescaped `*` seen, and the rest of the input (which starts
with the unconsumed `)`). -/
def parseValueSegments (s : List Char) :
    Except PyErr ((List (List ℕ) × ℕ) × List Char) :=
  parseValueSegmentsAux (s.length + 1) s [] [] 0

/-- `_build_substring_pattern`: first segment (if non-empty) is the
initial anchor, last segment (if non-empty) the final anchor, non-empty
interior segments are the ordered fragments.  (The source's two trailing
`if`-statements re-clearing empty anchors are no-ops and fold into the
same result.) -/
def buildSubstringPattern (segments : List (List ℕ)) :
    Except PyErr SubstringPattern :=
  match segments.map filterValueAsStr with
  | [] => .error .filterSyntaxError
  | s0 :: rest =>
    let all := s0 :: rest
    let last := all.getLastD []
    let middle := (all.drop 1).dropLast
    .ok { initial := if s0.isEmpty then none else some s0
          any := middle.filter (fun seg => !seg.isEmpty)
          final := if last.isEmpty then none else some last }

mutual

/-- `_parse_filter`.  Fuel-based (each call consumes at least the opening
parenthesis before recursing, so the top-level fuel `2·length + 2` cannot
be exhausted).  Returns the node and the rest of the input. -/
def parseFilterAux : ℕ → List Char → Except PyErr (FilterNode × List Char)
  | 0, _ => .error .outOfFuel
  | fuel + 1, s0 =>
    exBind (expectChar '(' (skipSpaces s0)) fun s2 =>
    let s3 := skipSpaces s2
    exBind (peekChar s3) fun c =>
    if c = '&' then
      exBind (parseFilterSeq fuel (s3.drop 1) []) fun pr =>
      exBind (expectChar ')' pr.2) fun s5 =>
      if pr.1.isEmpty then .error .filterSyntaxError
      else .ok (.and pr.1, s5)
    else if c = '|' then
      exBind (parseFilterSeq fuel (s3.drop 1) []) fun pr =>
      exBind (expectChar ')' pr.2) fun s5 =>
      if pr.1.isEmpty then .error .filterSyntaxError
      else .ok (.or pr.1, s5)
    else if c = '!' then
      exBind (parseFilterAux fuel (s3.drop 1)) fun pr =>
      exBind (expectChar ')' pr.2) fun s5 =>
      .ok (.not pr.1, s5)
    else
      exBind (parseAttribute s3) fun apr =>
      exBind (expectChar '=' apr.2) fun s5 =>
      exBind (parseValueSegments s5) fun vpr =>
      if vpr.1.2 = 1 ∧ vpr.1.1 = [[], []] then
        exBind (expectChar ')' vpr.2) fun s7 => .ok (.presence apr.1, s7)
      else if 1 ≤ vpr.1.2 then
        exBind (buildSubstringPattern vpr.1.1) fun pat =>
        exBind (expectChar ')' vpr.2) fun s7 => .ok (.substring apr.1 pat, s7)
      else
        match vpr.1.1 with
        | [] => .error .indexError
        | seg :: _ =>
          exBind (expectChar ')' vpr.2) fun s7 => .ok (.equality apr.1 seg, s7)

/-- The `while`-loop collecting the children of `&`/`|`: skip whitespace,
stop before a character other than `(` (peeking at end of input raises),
otherwise parse one sub-filter and continue. -/
def parseFilterSeq :
    ℕ → List Char → List FilterNode → Except PyErr (List FilterNode × List Char)
  | 0, _, _ => .error .outOfFuel
  | fuel + 1, s0, acc =>
    let s1 := skipSpaces s0
    exBind (peekChar s1) fun c =>
    if c = '(' then
      exBind (parseFilterAux fuel s1) fun pr =>
      parseFilterSeq fuel pr.2 (acc ++ [pr.1])
    else .ok (acc, s1)

end

/-- `Parser.parse` / `parse_filter`: parse one filter, then require only
whitespace to remain. -/
def parseFilterText (s : List Char) : Except PyErr FilterNode :=
  exBind (parseFilterAux (2 * s.length + 2) s) fun pr =>
  if (skipSpaces pr.2).isEmpty then .ok pr.1 else .error .filterSyntaxError

/-! ### `query_engine.py` -/

/-- `QueryStats`.  `matchCount` models the source's `matches` field
(`matches` is a reserved token in Lean); the wall-clock
`duration_seconds` field is real time and is not modelled. -/
structure QueryStats where
  entriesEvaluated : ℕ
  matchCount : ℕ
deriving DecidableEq, Repr

/-- `QueryEngine` state after `__init__`. -/
structure QueryEngine where
  reader : SnapshotReader
  filterNode : FilterNode
  ignoreCase : Bool
  limit : Option ℕ
  selectedAttributes : Option (List (List Char))
  unknownAttributes : List (List Char)

/-- `QueryEngine._normalise_attributes`: resolve each requested name to
its canonical on-disk spelling, collecting unknown ones separately; a
falsy (absent or empty) request, or one in which nothing resolved, selects
all attributes. -/
def normaliseAttributes (r : SnapshotReader)
    (attributes : Option (List (List Char))) :
    Option (List (List Char)) × List (List Char) :=
  match attributes with
  | none => (none, [])
  | some [] => (none, [])
  | some atts =>
    let step := fun (acc : List (List Char) × List (List Char)) (attr : List Char) =>
      let attr := pyStrip attr
      if attr.isEmpty then acc
      else
        match getProperty r attr with
        | none => (acc.1, acc.2 ++ [attr])
        | some prop => (acc.1 ++ [prop.name], acc.2)
    let (selected, unknown) := atts.foldl step ([], [])
    if selected.isEmpty then (none, unknown) else (some selected, unknown)

/-- `QueryEngine.__init__`. -/
def mkQueryEngine (reader : SnapshotReader) (filterNode : FilterNode)
    (ignoreCase : Bool) (attributes : Option (List (List Char)))
    (limit : Option ℕ) : QueryEngine :=
  let na := normaliseAttributes reader attributes
  { reader := reader, filterNode := filterNode, ignoreCase := ignoreCase
    limit := limit, selectedAttributes := na.1, unknownAttributes := na.2 }

/-- The loop of `QueryEngine.search` over the object offsets: construct
the entry (lazily, inside `iter_entries`), count it, evaluate the filter,
yield matches and stop once the match count has reached a non-`None`
limit — the check runs after the yield.  Errors raised while constructing
or evaluating an entry abort the whole iteration. -/
def searchLoop (r : SnapshotReader) (f : FilterNode) (ic : Bool)
    (limit : Option ℕ) :
    List ℕ → ℕ → ℕ → Except PyErr (List SnapshotEntry × ℕ × ℕ)
  | [], evaluated, m => .ok ([], evaluated, m)
  | offset :: rest, evaluated, m =>
    exBind (SnapshotEntry.init r offset) fun entry =>
    exBind (evaluate f { reader := r, entry := entry, ignoreCase := ic }) fun b =>
    if b then
      match limit with
      | some l =>
        if l ≤ m + 1 then .ok ([entry], evaluated + 1, m + 1)
        else
          exBind (searchLoop r f ic limit rest (evaluated + 1) (m + 1)) fun trip =>
            .ok (entry :: trip.1, trip.2)
      | none =>
        exBind (searchLoop r f ic limit rest (evaluated + 1) (m + 1)) fun trip =>
          .ok (entry :: trip.1, trip.2)
    else searchLoop r f ic limit rest (evaluated + 1) m

/-- `QueryEngine.search`, fully consumed: the yielded entries plus the
`QueryStats` stored at generator completion. -/
def QueryEngine.search (q : QueryEngine) :
    Except PyErr (List SnapshotEntry × QueryStats) :=
  match searchLoop q.reader q.filterNode q.ignoreCase q.limit
      q.reader.objectOffsets 0 0 with
  | .error e => .error e
  | .ok (res, evaluated, m) =>
    .ok (res, { entriesEvaluated := evaluated, matchCount := m })

/-- `QueryEngine.materialise`. -/
def QueryEngine.materialise (q : QueryEngine) (e : SnapshotEntry) :
    Except PyErr (List (List Char × CollapsedValue)) :=
  toDict q.reader e q.selectedAttributes

/-! ### Concrete snapshot fixtures -/

/-- Little-endian encoding of a u32. -/
def u32le (n : ℕ) : List ℕ :=
  [n % 256, n / 256 % 256, n / 65536 % 256, n / 16777216 % 256]

/-- Little-endian two's-complement encoding of an i32. -/
def i32le (z : ℤ) : List ℕ := u32le ((z % 2 ^ 32).toNat)

/-- UTF-16LE encoding of a BMP string. -/
def utf16leOf (s : List Char) : List ℕ :=
  s.flatMap (fun c => [c.toNat % 256, c.toNat / 256 % 256])

/-- One object record holding a single one-valued string attribute of
property index 0: record size, pair count 1, the pair (0, 16), and at
relative offset 16 the value count 1, the value's relative offset 8 and
the NUL-terminated UTF-16LE string. -/
def mkEntryStr (s : List Char) : List ℕ :=
  let sb := utf16leOf s ++ [0, 0]
  u32le (24 + sb.length) ++ u32le 1 ++ u32le 0 ++ i32le 16 ++
    u32le 1 ++ i32le 8 ++ sb

/-- One object record holding a single one-valued `ADSTYPE_INTEGER`
attribute of property index 0 with value `v`. -/
def mkEntryInt (v : ℕ) : List ℕ :=
  u32le 24 ++ u32le 1 ++ u32le 0 ++ i32le 16 ++ u32le 1 ++ u32le v

/-- A header value for hand-assembled readers (its fields are not
consulted by entry decoding or search). -/
def dummyHeader (numObjects numAttributes fileSize : ℕ) : SnapshotHeader :=
  { signature := [], capturedAt := 0, description := [], server := []
    numObjects := numObjects, numAttributes := numAttributes
    mappingOffset := 0, fileSize := fileSize }

/-- The schema property `cn` (a `DN_STRING`-class string type). -/
def propCn : PropertyDefinition :=
  { index := 0, name := s2c "cn", adsType := ADSTYPE_CASE_IGNORE_STRING
    distinguishedName := [], schemaIdGuid := [], attributeSecurityGuid := [] }

/-- A clean two-entry snapshot: objects "a" (offset 0) and "b"
(offset 28), each carrying `cn`. -/
def fhClean : List ℕ := mkEntryStr ['a'] ++ mkEntryStr ['b']

/-- Reader over `fhClean`. -/
def rdClean : SnapshotReader :=
  { fh := fhClean, useMmap := true, header := dummyHeader 2 1 fhClean.length
    properties := [propCn], propertyByName := [(s2c "cn", 0)]
    objectOffsets := [0, 28] }

/-- A snapshot whose first record is corrupt: its only attribute pair
points two bytes before the end of the file, so decoding its value list
hits `EOFError`; the second record ("b") is intact and carries `cn`. -/
def fhCorrupt : List ℕ :=
  u32le 16 ++ u32le 1 ++ u32le 0 ++ i32le 42 ++ mkEntryStr ['b']

/-- Reader over `fhCorrupt`. -/
def rdCorrupt : SnapshotReader :=
  { fh := fhCorrupt, useMmap := true
    header := dummyHeader 2 1 fhCorrupt.length
    properties := [propCn], propertyByName := [(s2c "cn", 0)]
    objectOffsets := [0, 16] }

/-- The schema property `userAccountControl` as stored
(`ADSTYPE_INTEGER`). -/
def propUac : PropertyDefinition :=
  { index := 0, name := s2c "userAccountControl", adsType := ADSTYPE_INTEGER
    distinguishedName := [], schemaIdGuid := [], attributeSecurityGuid := [] }

/-- A snapshot with two integer-attribute entries: value 332 (= 0o514) at
offset 0 and value 514 at offset 24. -/
def fhInts : List ℕ := mkEntryInt 332 ++ mkEntryInt 514

/-- Reader over `fhInts`. -/
def rdInts : SnapshotReader :=
  { fh := fhInts, useMmap := true, header := dummyHeader 2 1 fhInts.length
    properties := [propUac]
    propertyByName := [(s2c "useraccountcontrol", 0)]
    objectOffsets := [0, 24] }

-- sanity checks over the fixtures
example : SnapshotEntry.init rdClean 0 = .ok ⟨0, 28, [(0, 16)]⟩ := rfl
example : SnapshotEntry.init rdClean 28 = .ok ⟨28, 28, [(0, 16)]⟩ := rfl
example :
    getAttributeValues rdClean ⟨0, 28, [(0, 16)]⟩ (s2c "cn") false =
      .ok [.str ['a']] := rfl
example :
    evaluate (.presence (s2c "cn")) ⟨rdClean, ⟨0, 28, [(0, 16)]⟩, false⟩ =
      .ok true := by
  simp only [evaluate]
  rfl
example : SnapshotEntry.init rdCorrupt 0 = .ok ⟨0, 16, [(0, 42)]⟩ := rfl
example :
    getAttributeValues rdCorrupt ⟨0, 16, [(0, 42)]⟩ (s2c "cn") false =
      .error (.eof 4 2) := rfl
example :
    getAttributeValues rdInts ⟨0, 24, [(0, 16)]⟩ (s2c "userAccountControl") false =
      .ok [.int 332] := rfl
example : pyIntBase0 (s2c "0514") = none := rfl
example : pyIntBase0 (s2c "514") = some 514 := rfl
example : pyIntBase0 (s2c "0x202") = some 514 := rfl
example : equalityMatches [.int 514] ((s2c "514").map Char.toNat) = true := rfl
example : equalityMatches [.int 514] ((s2c "0x202").map Char.toNat) = true := rfl
example : equalityMatches [.int 332] ((s2c "0514").map Char.toNat) = false := rfl
example : parseFilterText (s2c "(a=\\ f)") = .ok (.equality ['a'] [15]) := rfl
example : parseFilterText (s2c "(attr=\\2a)") = .ok (.equality (s2c "attr") [42]) := rfl
example : parseFilterText (s2c "(cn=*)") = .ok (.presence (s2c "cn")) := rfl
example : parseFilterText (s2c "(cn=al*)") =
    .ok (.substring (s2c "cn") ⟨some (s2c "al"), [], none⟩) := rfl
example : parseFilterText (s2c "(a=\\zz)") = .error .filterSyntaxError := rfl
example : parseFilterText (s2c "(a=\\-f)") = .error .byteRange := rfl
example : pyIntBase16 [' ', 'f'] = some 15 := rfl
example : parseEscape [' ', 'f'] = .ok (15, []) := rfl

/-- A 1086-byte file holding just the fixed header: zero signature,
marker, filetime, description, server, object and attribute counts, with
the given mapping-offset halves. -/
def mkHeaderFile (mapLow mapHigh : ℕ) : List ℕ :=
  List.replicate 10 0 ++ u32le 0 ++ List.replicate 8 0 ++
    List.replicate 520 0 ++ List.replicate 520 0 ++
    u32le 0 ++ u32le 0 ++ u32le mapLow ++ u32le mapHigh ++ u32le 0 ++ u32le 0

/-- Header-only file whose mapping offset equals the file size (1086):
the offset points outside the stored bytes. -/
def fileMapAtEnd : List ℕ := mkHeaderFile 1086 0

/-- Header-only file whose mapping offset (2000) is strictly beyond the
file size. -/
def fileMapBeyond : List ℕ := mkHeaderFile 2000 0

/-- The same header truncated to 1000 bytes. -/
def fileTruncated : List ℕ := (mkHeaderFile 0 0).take 1000


/-! ### Dictionary lemmas -/

/-- Lookup on an empty dictionary. -/
theorem dictGet_nil (k2 : List Char) : dictGet [] k2 = none := rfl

/-- Lookup hitting the head entry. -/
theorem dictGet_cons_pos (a : List Char × ℕ) (l : List (List Char × ℕ))
    (k2 : List Char) (h : a.1 = k2) : dictGet (a :: l) k2 = some a.2 := by
  unfold dictGet
  rw [List.find?_cons_of_pos _ (by simp [h])]
  rfl

/-- Lookup skipping the head entry. -/
theorem dictGet_cons_neg (a : List Char × ℕ) (l : List (List Char × ℕ))
    (k2 : List Char) (h : ¬ a.1 = k2) : dictGet (a :: l) k2 = dictGet l k2 := by
  unfold dictGet
  rw [List.find?_cons_of_neg _ (by simp [h])]

/-- Replacing the value of a key other than the one looked up does not
change a lookup. -/
theorem dictGet_mapReplace_ne (l : List (List Char × ℕ)) (k : List Char)
    (v : ℕ) (k2 : List Char) (h : k2 ≠ k) :
    dictGet (l.map (fun p => if p.1 = k then (k, v) else p)) k2 = dictGet l k2 := by
  unfold dictGet
  rw [List.find?_map]
  have hpred :
      ((fun p : List Char × ℕ => decide (p.1 = k2)) ∘
        (fun p : List Char × ℕ => if p.1 = k then (k, v) else p)) =
      (fun p : List Char × ℕ => decide (p.1 = k2)) := by
    funext p
    by_cases hp : p.1 = k
    · simp [hp, Ne.symm h]
    · simp [hp]
  rw [hpred]
  cases hres : List.find? (fun p : List Char × ℕ => decide (p.1 = k2)) l with
  | none => rfl
  | some p =>
    have hp : p.1 = k2 := by simpa using List.find?_some hres
    simp [hp, h]

/-- Python-`dict` lookup after insertion. -/
theorem dictGet_dictInsert (d : List (List Char × ℕ)) (k : List Char) (v : ℕ)
    (k2 : List Char) :
    dictGet (dictInsert d k v) k2 = if k2 = k then some v else dictGet d k2 := by
  unfold dictInsert
  by_cases hf : (d.find? (fun p => decide (p.1 = k))).isSome
  · rw [if_pos hf]
    obtain ⟨p0, hp0mem, hp0⟩ := List.find?_isSome.mp hf
    have hpresent : ∃ p ∈ d, p.1 = k := ⟨p0, hp0mem, by simpa using hp0⟩
    clear hf hp0 hp0mem
    induction d with
    | nil => simp at hpresent
    | cons a l ih =>
      by_cases hak : a.1 = k
      · by_cases hk2 : k2 = k
        · subst hk2
          rw [List.map_cons, if_pos hak, dictGet_cons_pos _ _ _ rfl, if_pos rfl]
        · rw [List.map_cons, if_pos hak,
            dictGet_cons_neg _ _ _ (by simpa using Ne.symm hk2),
            dictGet_mapReplace_ne l k v k2 hk2, if_neg hk2,
            dictGet_cons_neg _ _ _ (by rw [hak]; exact Ne.symm hk2)]
      · by_cases hpa : a.1 = k2
        · have hk2k : k2 ≠ k := fun hh => hak (hpa.trans hh)
          rw [List.map_cons, if_neg hak, dictGet_cons_pos _ _ _ hpa,
            if_neg hk2k, dictGet_cons_pos _ _ _ hpa]
        · have hpresent' : ∃ p ∈ l, p.1 = k := by
            obtain ⟨p, hmem, hpk⟩ := hpresent
            rcases List.mem_cons.mp hmem with h | h
            · exact absurd (h ▸ hpk) hak
            · exact ⟨p, h, hpk⟩
          rw [List.map_cons, if_neg hak, dictGet_cons_neg _ _ _ hpa,
            dictGet_cons_neg _ _ _ hpa]
          exact ih hpresent'
  · rw [if_neg hf]
    have hnone : d.find? (fun p => decide (p.1 = k)) = none :=
      Option.not_isSome_iff_eq_none.mp hf
    by_cases hk2 : k2 = k
    · subst hk2
      unfold dictGet
      rw [List.find?_append, hnone]
      simp
    · unfold dictGet
      rw [List.find?_append]
      have hlast : List.find? (fun p : List Char × ℕ => decide (p.1 = k2)) [(k, v)] = none := by
        simp [List.find?, Ne.symm hk2]
      rw [hlast, if_neg hk2]
      simp

/-- After `buildByNameGo` over names none of which lowercase to `key`,
a lookup of `key` is unchanged. -/
theorem dictGet_buildByNameGo_miss (names : List (List Char)) (start : ℕ)
    (d : List (List Char × ℕ)) (key : List Char)
    (h : ∀ nm ∈ names, pyLowerStr nm ≠ key) :
    dictGet (buildByNameGo names start d) key = dictGet d key := by
  induction names generalizing start d with
  | nil => rfl
  | cons nm rest ih =>
    unfold buildByNameGo
    rw [ih _ _ (fun x hx => h x (List.mem_cons_of_mem _ hx))]
    rw [dictGet_dictInsert]
    exact if_neg (fun hh => h nm (List.mem_cons_self _ _) hh.symm)

/-- If position `i` is the last whose name lowercases to `key`, the map
built by `buildByNameGo` sends `key` to `start + i`. -/
theorem dictGet_buildByNameGo_hit (names : List (List Char)) (start : ℕ)
    (d : List (List Char × ℕ)) (key : List Char) (i : ℕ) (hi : i < names.length)
    (hkey : pyLowerStr (names.get ⟨i, hi⟩) = key)
    (hlast : ∀ j (hj : j < names.length), i < j → pyLowerStr (names.get ⟨j, hj⟩) ≠ key) :
    dictGet (buildByNameGo names start d) key = some (start + i) := by
  induction names generalizing start d i with
  | nil => exact absurd hi (by simp)
  | cons nm rest ih =>
    unfold buildByNameGo
    cases i with
    | zero =>
      have hmiss : ∀ x ∈ rest, pyLowerStr x ≠ key := by
        intro x hx
        obtain ⟨⟨j, hj⟩, hxj⟩ := List.mem_iff_get.mp hx
        have := hlast (j + 1) (by simpa using Nat.succ_lt_succ hj) (Nat.succ_pos j)
        rw [← hxj]
        simpa [List.get] using this
      rw [dictGet_buildByNameGo_miss _ _ _ _ hmiss, dictGet_dictInsert]
      simp only [List.get] at hkey
      simp [hkey]
    | succ i' =>
      have hi' : i' < rest.length := by simpa using Nat.lt_of_succ_lt_succ hi
      have hkey' : pyLowerStr (rest.get ⟨i', hi'⟩) = key := by
        simpa [List.get] using hkey
      have hlast' : ∀ j (hj : j < rest.length), i' < j →
          pyLowerStr (rest.get ⟨j, hj⟩) ≠ key := by
        intro j hj hij
        have := hlast (j + 1) (by simpa using Nat.succ_lt_succ hj)
          (Nat.succ_lt_succ hij)
        simpa [List.get] using this
      rw [ih (start + 1) (dictInsert d (pyLowerStr nm) start) i' hi' hkey' hlast']
      simp only [Option.some.injEq]
      omega

/-- Successful `fhBind` decomposition. -/
theorem fhBind_ok_iff (x : Except PyErr (α × ℕ)) (f : α → ℕ → Except PyErr (β × ℕ))
    (y : β × ℕ) :
    fhBind x f = .ok y ↔ ∃ a p, x = .ok (a, p) ∧ f a p = .ok y := by
  cases x with
  | error e => simp [fhBind]
  | ok pr =>
    obtain ⟨a0, p0⟩ := pr
    constructor
    · intro hy
      exact ⟨a0, p0, rfl, hy⟩
    · rintro ⟨a, p, hap, hy⟩
      have h1 : a0 = a ∧ p0 = p := by simpa using hap
      rw [show fhBind (Except.ok (a0, p0)) f = f a0 p0 from rfl, h1.1, h1.2]
      exact hy

/-- `buildByNameGo` over a snoc: the last name is inserted last, with the
index of its position. -/
theorem buildByNameGo_snoc (names : List (List Char)) (nm : List Char)
    (start : ℕ) (d : List (List Char × ℕ)) :
    buildByNameGo (names ++ [nm]) start d =
      dictInsert (buildByNameGo names start d) (pyLowerStr nm)
        (start + names.length) := by
  induction names generalizing start d with
  | nil => simp [buildByNameGo]
  | cons x rest ih =>
    simp only [List.cons_append, buildByNameGo]
    rw [show rest.append [nm] = rest ++ [nm] from rfl, ih]
    congr 1
    simp only [List.length_cons]
    omega

/-- A parsed property record carries the loop counter as its `index`. -/
theorem parseOneProperty_index (data : List ℕ) (idx pos : ℕ)
    (prop : PropertyDefinition) (p : ℕ)
    (h : parseOneProperty data idx pos = .ok (prop, p)) : prop.index = idx := by
  unfold parseOneProperty at h
  simp only [fhBind_ok_iff] at h
  obtain ⟨a1, p1, -, a2, p2, -, a3, p3, -, a4, p4, -, a5, p5, -, a6, p6, -,
    a7, p7, -, a8, p8, -, a9, p9, -, hfin⟩ := h
  simp only [Except.ok.injEq, Prod.mk.injEq] at hfin
  rw [← hfin.1]

/-- The `_parse_properties` loop preserves the schema invariants: the
name map is exactly `buildByName` of the property names, and each
property's `index` is its position. -/
theorem parsePropsLoop_invariants :
    ∀ (count : ℕ) (data : List ℕ) (idx : ℕ) (accP : List PropertyDefinition)
      (accD : List (List Char × ℕ)) (pos : ℕ) (props : List PropertyDefinition)
      (dict : List (List Char × ℕ)) (pos' : ℕ),
      parsePropsLoop data count idx accP accD pos = .ok ((props, dict), pos') →
      idx = accP.length →
      accD = buildByName (accP.map PropertyDefinition.name) →
      (∀ j (hj : j < accP.length), (accP.get ⟨j, hj⟩).index = j) →
      dict = buildByName (props.map PropertyDefinition.name) ∧
      (∀ j (hj : j < props.length), (props.get ⟨j, hj⟩).index = j) := by
  intro count
  induction count with
  | zero =>
    intro data idx accP accD pos props dict pos' h hidx hdict hprops
    simp only [parsePropsLoop, Except.ok.injEq, Prod.mk.injEq] at h
    obtain ⟨⟨h1, h2⟩, -⟩ := h
    rw [← h1, ← h2]
    exact ⟨hdict, hprops⟩
  | succ c ih =>
    intro data idx accP accD pos props dict pos' h hidx hdict hprops
    simp only [parsePropsLoop] at h
    cases hone : parseOneProperty data idx pos with
    | error err => rw [hone, fhBind_error] at h; exact absurd h (by simp)
    | ok pr =>
      obtain ⟨prop, p⟩ := pr
      rw [hone, fhBind_ok] at h
      have hpidx : prop.index = idx := parseOneProperty_index data idx pos prop p hone
      refine ih data (idx + 1) (accP ++ [prop])
        (dictInsert accD (pyLowerStr prop.name) idx) p props dict pos' h
        (by simp [hidx]) ?_ ?_
      · rw [hdict, hidx]
        unfold buildByName
        rw [List.map_append, List.map_singleton, buildByNameGo_snoc]
        simp
      · intro j hj
        by_cases hjl : j < accP.length
        · have he : (accP ++ [prop]).get ⟨j, hj⟩ = accP.get ⟨j, hjl⟩ := by
            simp only [List.get_eq_getElem]
            exact List.getElem_append_left hjl
          rw [he]
          exact hprops j hjl
        · have hje : j = accP.length := by
            simp only [List.length_append, List.length_singleton] at hj
            omega
          subst hje
          have he : (accP ++ [prop]).get ⟨accP.length, hj⟩ = prop := by
            simp
          rw [he, hpidx, hidx]

/-- Readers produced by `SnapshotReader.__init__` satisfy the schema
invariants assumed by the C6 analysis: the name map is `buildByName` of
the property names and each property's `index` is its schema position. -/
theorem snapshotReaderInit_schema_invariants (file : Option (List ℕ))
    (useMmap : Bool) (r : SnapshotReader)
    (h : snapshotReaderInit file useMmap = .ok r) :
    r.propertyByName = buildByName (r.properties.map PropertyDefinition.name) ∧
    ∀ j (hj : j < r.properties.length), (r.properties.get ⟨j, hj⟩).index = j := by
  cases file with
  | none => exact absurd h (by simp [snapshotReaderInit])
  | some data =>
    simp only [snapshotReaderInit] at h
    split at h
    · exact absurd h (by simp)
    · split at h
      · exact absurd h (by simp)
      · split at h
        · exact absurd h (by simp)
        · split at h
          · exact absurd h (by simp)
          · rename_i offsets hpos3 hoo
            simp only [Except.ok.injEq] at h
            subst h
            rename_i props byName hpos2 hpp x0
            unfold parseProperties at hpp
            simp only [fhBind_ok_iff] at hpp
            obtain ⟨u, pu, -, nv, pv, -, hloop⟩ := hpp
            exact parsePropsLoop_invariants nv data 0 [] [] pv props byName _
              hloop rfl rfl (fun j hj => absurd hj (by simp))

/-- Claim C1.  The claim states that a decoding error on one entry inside
`QueryEngine.search()` is isolated to that entry and the scan continues.
The code has no handler: the `EOFError` raised while evaluating the filter
against the corrupt first record of `rdCorrupt` propagates out of
`search()` and terminates the scan — even though the second record is
intact, matches the filter, and would have been yielded. -/
theorem c1_decoding_error_aborts_search :
    QueryEngine.search
        (mkQueryEngine rdCorrupt (.presence (s2c "cn")) false none none) =
      .error (.eof 4 2) ∧
    ∃ e2, SnapshotEntry.init rdCorrupt 16 = .ok e2 ∧
      evaluate (.presence (s2c "cn")) ⟨rdCorrupt, e2, false⟩ = .ok true := by
  constructor
  · have h1 : SnapshotEntry.init rdCorrupt 0 = .ok ⟨0, 16, [(0, 42)]⟩ := rfl
    have h2 :
        evaluate (.presence (s2c "cn")) ⟨rdCorrupt, ⟨0, 16, [(0, 42)]⟩, false⟩ =
          .error (.eof 4 2) := by
      simp only [evaluate]
      rfl
    have hoff : rdCorrupt.objectOffsets = [0, 16] := rfl
    simp only [QueryEngine.search, mkQueryEngine, hoff, searchLoop, h1, h2,
      exBind_ok, exBind_error]
  · refine ⟨⟨16, 28, [(0, 16)]⟩, rfl, ?_⟩
    simp only [evaluate]
    rfl

/-- Claim C2, counterexample.  The claim states that enumerating the
attributes of an entry whose mapping holds an out-of-range property index
skips that pair.  On an entry whose mapping is `[(5, 8)]` over a
one-property schema, `iter_attributes` (and hence `to_dict` without a
selection) instead fails with `IndexError` at `reader.properties[5]`. -/
theorem c2_iter_attributes_index_error :
    iterAttributes rdClean ⟨0, 28, [(5, 8)]⟩ = .error .indexError ∧
    toDict rdClean ⟨0, 28, [(5, 8)]⟩ none = .error .indexError ∧
    rdClean.properties.length = 1 := by
  exact ⟨rfl, rfl, rfl⟩

/-- Claim C2, amended.  Name-based lookup is unaffected by an out-of-range
mapping pair: prepending a pair whose property index is at least the
property count leaves `get_attribute_values` unchanged (such a pair can
never be selected, because the looked-up property's index is in range).
An out-of-range pair only breaks enumeration (see the counterexample). -/
theorem c2_out_of_range_pair_invisible_to_lookup
    (r : SnapshotReader) (e : SnapshotEntry) (name : List Char) (raw : Bool)
    (idx : ℕ) (off : ℤ)
    (hidx : r.properties.length ≤ idx)
    (hprops : ∀ p ∈ r.properties, p.index < r.properties.length) :
    getAttributeValues r ⟨e.offset, e.size, (idx, off) :: e.mapping⟩ name raw =
      getAttributeValues r e name raw := by
  unfold getAttributeValues
  cases hgp : getProperty r name with
  | none => rfl
  | some prop =>
    have hmem : prop ∈ r.properties := by
      unfold getProperty at hgp
      cases hdg : dictGet r.propertyByName (pyLowerStr name) with
      | none => rw [hdg] at hgp; exact absurd hgp (by simp)
      | some i =>
        rw [hdg] at hgp
        obtain ⟨hlt, hget⟩ := List.getElem?_eq_some.mp hgp
        exact hget ▸ List.getElem_mem hlt
    have hne : ¬ ((idx, off) : ℕ × ℤ).1 = prop.index := by
      have := hprops prop hmem
      simp only
      omega
    simp only
    rw [List.find?_cons_of_neg _ (by simpa using hne)]

/-- Claim C2, witness for the amended theorem. -/
theorem c2_out_of_range_pair_invisible_to_lookup_witness :
    (rdClean.properties.length ≤ 5 ∧
      ∀ p ∈ rdClean.properties, p.index < rdClean.properties.length) ∧
    getAttributeValues rdClean ⟨0, 28, [(5, 8), (0, 16)]⟩ (s2c "cn") false =
      getAttributeValues rdClean ⟨0, 28, [(0, 16)]⟩ (s2c "cn") false := by
  refine ⟨⟨by decide, by decide⟩, ?_⟩
  exact c2_out_of_range_pair_invisible_to_lookup rdClean ⟨0, 28, [(0, 16)]⟩
    (s2c "cn") false 5 8 (by decide) (by decide)

/-- The schema property `ss` of the C6 fixture. -/
def propSS : PropertyDefinition :=
  { index := 0, name := s2c "ss", adsType := ADSTYPE_CASE_IGNORE_STRING
    distinguishedName := [], schemaIdGuid := [], attributeSecurityGuid := [] }

/-- A reader whose schema holds the single property "ss". -/
def rdSS : SnapshotReader :=
  { fh := [], useMmap := true, header := dummyHeader 0 1 0
    properties := [propSS]
    propertyByName := buildByName [s2c "ss"]
    objectOffsets := [] }

/-- Claim C6, counterexample.  "ß" is a case-variation of the property name
"ss" under full Unicode case folding (`casefold` sends both to "ss"), yet
`get_property` — which keys the name map by `str.lower()`, not
`str.casefold()` — misses it. -/
theorem c6_casefold_variation_misses :
    pyCaseFoldStr (s2c "ß") = pyCaseFoldStr (s2c "ss") ∧
    (rdSS.properties.map PropertyDefinition.name) = [s2c "ss"] ∧
    getProperty rdSS (s2c "ß") = none := by
  exact ⟨rfl, rfl, rfl⟩

/-- Claim C6, amended.  `get_property` is case-insensitive in the sense of
Python `str.lower()`: for a property `P` at position `i` whose lowered
name is not shadowed by a later property, every string with the same
`lower()`-image resolves to `P`, whose `index` equals its schema
position.  (Case-variations that only full case folding identifies, such
as "ß" for "ss", are not matched — see the counterexample.) -/
theorem c6_lower_case_insensitive_lookup
    (r : SnapshotReader) (i : ℕ) (hi : i < r.properties.length) (s : List Char)
    (hmap : r.propertyByName = buildByName (r.properties.map PropertyDefinition.name))
    (hlast : ∀ j (hj : j < r.properties.length), i < j →
      pyLowerStr (r.properties.get ⟨j, hj⟩).name ≠
        pyLowerStr (r.properties.get ⟨i, hi⟩).name)
    (hidx : ∀ j (hj : j < r.properties.length), (r.properties.get ⟨j, hj⟩).index = j)
    (hs : pyLowerStr s = pyLowerStr (r.properties.get ⟨i, hi⟩).name) :
    getProperty r s = some (r.properties.get ⟨i, hi⟩) ∧
      (r.properties.get ⟨i, hi⟩).index = i := by
  refine ⟨?_, hidx i hi⟩
  unfold getProperty
  have hlen : i < (r.properties.map PropertyDefinition.name).length := by
    simpa using hi
  have hkey : pyLowerStr ((r.properties.map PropertyDefinition.name).get ⟨i, hlen⟩) =
      pyLowerStr (r.properties.get ⟨i, hi⟩).name := by
    simp [List.getElem_map]
  have hlast' : ∀ j (hj : j < (r.properties.map PropertyDefinition.name).length),
      i < j → pyLowerStr ((r.properties.map PropertyDefinition.name).get ⟨j, hj⟩) ≠
        pyLowerStr (r.properties.get ⟨i, hi⟩).name := by
    intro j hj hij
    have hj' : j < r.properties.length := by simpa using hj
    have := hlast j hj' hij
    simpa [List.getElem_map] using this
  have hhit := dictGet_buildByNameGo_hit (r.properties.map PropertyDefinition.name)
    0 [] (pyLowerStr (r.properties.get ⟨i, hi⟩).name) i hlen hkey hlast'
  rw [hs, hmap]
  unfold buildByName at *
  rw [hhit]
  simp only [Nat.zero_add]
  rw [List.getElem?_eq_getElem hi]
  rfl

/-- Claim C6, witness for the amended theorem ("SS" lowers to "ss"). -/
theorem c6_lower_case_insensitive_lookup_witness :
    (rdSS.propertyByName =
        buildByName (rdSS.properties.map PropertyDefinition.name) ∧
      pyLowerStr (s2c "SS") = pyLowerStr (rdSS.properties.get ⟨0, by decide⟩).name) ∧
    getProperty rdSS (s2c "SS") = some (rdSS.properties.get ⟨0, by decide⟩) ∧
      (rdSS.properties.get ⟨0, by decide⟩).index = 0 := by
  refine ⟨⟨by decide, by decide⟩, ?_⟩
  exact c6_lower_case_insensitive_lookup rdSS 0 (by decide) (s2c "SS")
    (by decide) (by decide) (by decide) (by decide)

/-- Rounding an integer changes nothing. -/
theorem roundHalfEven_intCast (n : ℤ) : roundHalfEven ((n : ℚ)) = n := by
  unfold roundHalfEven
  simp [Int.floor_intCast]

/-- The binary exponent of 3/2 is 0. -/
theorem qExp2_three_halves : qExp2 (3 / 2 : ℚ) = 0 := by
  unfold qExp2
  rw [if_pos (by norm_num : (1 : ℚ) ≤ 3 / 2)]
  norm_num [natLog2, natLog2Aux]

/-- 3/2 (= 1.5) is exactly representable as a binary64 float. -/
theorem floatRound53_three_halves : floatRound53 (3 / 2 : ℚ) = 3 / 2 := by
  unfold floatRound53
  rw [if_neg (by norm_num : ¬ (3 / 2 : ℚ) ≤ 0)]
  rw [qExp2_three_halves]
  dsimp only
  have h1 : (3 / 2 : ℚ) * (2 : ℚ) ^ ((52 : ℤ) - 0) = ((3 * 2 ^ 51 : ℤ) : ℚ) := by
    push_cast
    norm_num
  rw [h1, roundHalfEven_intCast]
  push_cast
  rw [zpow_neg]
  norm_num

/-- Claim C3.  The claim (and the spec) state that the conversion of a
nonzero filetime truncates `v / 10` toward zero.  The code divides with
Python float `/` and builds a `timedelta` from the fractional
microseconds, which rounds half to even: filetime 15 (1.5 µs) becomes
2 µs after 1601-01-01, not the 1 µs that truncation would give.  The
zero case does map to the 1970 epoch as claimed. -/
theorem c3_filetime_rounds_not_truncates :
    windowsFiletimeToDatetime 15 = 2 ∧
    (15 : ℕ) / 10 = 1 ∧
    windowsFiletimeToDatetime 0 = 11644473600000000 := by
  refine ⟨?_, by norm_num, by norm_num [windowsFiletimeToDatetime, EPOCH_1601_TO_1970]⟩
  unfold windowsFiletimeToDatetime
  rw [if_neg (by norm_num : ¬ (15 : ℕ) = 0)]
  rw [show ((15 : ℕ) : ℚ) / 10 = (3 / 2 : ℚ) by norm_num]
  rw [floatRound53_three_halves]
  unfold roundHalfEven
  rw [show ⌊(3 / 2 : ℚ)⌋ = 1 by norm_num]
  norm_num

/-- Claim C4, counterexample.  The claim states that a filter text with a
leading `0` is parsed as octal.  Against a stored integer 332 (= 0o514),
the needle "0514" — whose octal reading is exactly 332 — yields **no
match**: Python's `int(s, 0)` rejects bare leading-zero literals, and the
code maps the parse failure to "no match". -/
theorem c4_octal_needle_no_match :
    (0o514 : ℕ) = 332 ∧
    SnapshotEntry.init rdInts 0 = .ok ⟨0, 24, [(0, 16)]⟩ ∧
    getAttributeValues rdInts ⟨0, 24, [(0, 16)]⟩ (s2c "userAccountControl") false =
      .ok [.int 332] ∧
    pyIntBase0 (s2c "0514") = none ∧
    evaluate (.equality (s2c "userAccountControl") ((s2c "0514").map Char.toNat))
        ⟨rdInts, ⟨0, 24, [(0, 16)]⟩, false⟩ = .ok false := by
  refine ⟨rfl, rfl, rfl, rfl, ?_⟩
  simp only [evaluate]
  rfl

/-- Claim C4, amended.  For an integer-typed sample the needle is parsed
with Python's `int(·, 0)` literal rules (`0x` hex, `0o` octal, `0b`
binary, bare leading zeroes invalid): any text this parse rejects yields
no match rather than an error, and the needles "514" and "0x202" both
equal the stored integer 514. -/
theorem c4_integer_equality_python_literal :
    (∀ (vs : List PyValue) (k : ℤ) (needle : List ℕ),
      vs.head? = some (.int k) →
      pyIntBase0 (filterValueAsStr needle) = none →
      equalityMatches vs needle = false) ∧
    SnapshotEntry.init rdInts 24 = .ok ⟨24, 24, [(0, 16)]⟩ ∧
    evaluate (.equality (s2c "userAccountControl") ((s2c "514").map Char.toNat))
        ⟨rdInts, ⟨24, 24, [(0, 16)]⟩, false⟩ = .ok true ∧
    evaluate (.equality (s2c "userAccountControl") ((s2c "0x202").map Char.toNat))
        ⟨rdInts, ⟨24, 24, [(0, 16)]⟩, false⟩ = .ok true := by
  refine ⟨?_, rfl, ?_, ?_⟩
  · intro vs k needle h1 h2
    unfold equalityMatches prepareValue
    rw [h1, h2]
    rfl
  · simp only [evaluate]
    rfl
  · simp only [evaluate]
    rfl

/-- Claim C4, witness for the amended theorem. -/
theorem c4_integer_equality_python_literal_witness :
    ([PyValue.int 332].head? = some (.int 332) ∧
      pyIntBase0 (filterValueAsStr ((s2c "0514").map Char.toNat)) = none) ∧
    equalityMatches [.int 332] ((s2c "0514").map Char.toNat) = false :=
  ⟨⟨rfl, rfl⟩,
    c4_integer_equality_python_literal.1 [.int 332] 332
      ((s2c "0514").map Char.toNat) rfl rfl⟩

/-- The mapping offset stored in a header image: the u32 at byte 1074
shifted left 32 bits, or-ed with the u32 at byte 1070 (high then low
halves, as `_parse_header` assembles them). -/
def mappingOffsetOf (data : List ℕ) : ℕ :=
  (leNat ((data.drop 1074).take 4) <<< 32) ||| leNat ((data.drop 1070).take 4)

/-- `_read_exact` succeeds exactly on in-range reads. -/
theorem readExact_ok (data : List ℕ) (n pos : ℕ) (h : pos + n ≤ data.length) :
    readExact data n pos = .ok ((data.drop pos).take n, pos + n) := by
  unfold readExact
  have hlen : ((data.drop pos).take n).length = n := by
    simp only [List.length_take, List.length_drop]
    omega
  simp [hlen]

/-- `_read_uint32` on an in-range position. -/
theorem readUint32_ok (data : List ℕ) (pos : ℕ) (h : pos + 4 ≤ data.length) :
    readUint32 data pos = .ok (leNat ((data.drop pos).take 4), pos + 4) := by
  unfold readUint32
  rw [readExact_ok data 4 pos h, fhBind_ok]

/-- `_read_int32` on an in-range position (value existentially). -/
theorem readInt32_ok (data : List ℕ) (pos : ℕ) (h : pos + 4 ≤ data.length) :
    ∃ z, readInt32 data pos = .ok (z, pos + 4) := by
  unfold readInt32
  rw [readExact_ok data 4 pos h, fhBind_ok]
  exact ⟨_, rfl⟩

/-- A file of at least 1086 bytes always parses a header, whose mapping
offset is the value assembled from bytes 1070..1077. -/
theorem parseHeader_mappingOffset (data : List ℕ) (h : 1086 ≤ data.length) :
    ∃ hdr : SnapshotHeader, parseHeader data = .ok (hdr, 1086) ∧
      hdr.mappingOffset = mappingOffsetOf data := by
  have e1 := readExact_ok data 10 0 (by omega)
  obtain ⟨m1, hm1⟩ := readInt32_ok data 10 (by omega)
  have e2 := readExact_ok data 8 14 (by omega)
  have e3 := readExact_ok data 520 22 (by omega)
  have e4 := readExact_ok data 520 542 (by omega)
  have u1 := readUint32_ok data 1062 (by omega)
  have u2 := readUint32_ok data 1066 (by omega)
  have u3 := readUint32_ok data 1070 (by omega)
  have u4 := readUint32_ok data 1074 (by omega)
  have u5 := readUint32_ok data 1078 (by omega)
  obtain ⟨m2, hm2⟩ := readInt32_ok data 1082 (by omega)
  unfold parseHeader
  simp only [e1, fhBind_ok, hm1, e2, e3, e4, u1, u2, u3, u4, u5, hm2,
    Nat.reduceAdd]
  exact ⟨_, rfl, rfl⟩

set_option maxRecDepth 10000 in
/-- Claim C5, counterexample.  The claim says a mapping offset outside the
file fails with a `MalformedHeader` error distinct from `NotFound` and
`TruncatedFile`.  The code has no such error kind: with the offset equal
to the file size (just outside the data) under the default memory map, or
any out-of-range offset under the buffered-file fallback, opening fails
with the very same `EOFError` a truncated header produces. -/
theorem c5_outside_offset_same_error_as_truncation :
    snapshotReaderInit (some fileMapAtEnd) true = .error (.eof 4 0) ∧
    snapshotReaderInit (some fileMapBeyond) false = .error (.eof 4 0) ∧
    snapshotReaderInit (some fileTruncated) true = .error (.eof 520 458) ∧
    snapshotReaderInit none true = .error .fileNotFound ∧
    mappingOffsetOf fileMapAtEnd = fileMapAtEnd.length := by
  exact ⟨rfl, rfl, rfl, rfl, rfl⟩

/-- Claim C5, amended.  Under the default memory map, a mapping offset
strictly greater than the file size does fail distinctly — with the
`ValueError` of `mmap.seek` (`seekOutOfRange`), which differs from
`NotFound` and from the `EOFError` of truncation; but an offset equal to
the file size, or any out-of-range offset under the buffered fallback,
fails with the truncation `EOFError` itself (see the counterexample). -/
theorem c5_mmap_offset_beyond_raises_seek_error (data : List ℕ)
    (h : 1086 ≤ data.length) (hoff : data.length < mappingOffsetOf data) :
    snapshotReaderInit (some data) true = .error .seekOutOfRange := by
  obtain ⟨hdr, hph, hmo⟩ := parseHeader_mappingOffset data h
  have hne : ¬ (true = true ∧ data.length = 0) := by
    simp only [true_and]
    omega
  have hseek : seekFh true data (hdr.mappingOffset : ℤ) 0 = .error .seekOutOfRange := by
    unfold seekFh
    have h1 : ¬ ((hdr.mappingOffset : ℤ) < 0) := by omega
    have h2 : true = true ∧ (data.length : ℤ) < (hdr.mappingOffset : ℤ) := by
      refine ⟨rfl, ?_⟩
      rw [hmo]
      exact_mod_cast hoff
    rw [if_neg h1, if_pos h2]
  simp only [snapshotReaderInit, if_neg hne, hph, parseProperties, hseek,
    fhBind_error, true_and]
  rw [if_neg (by omega : ¬ data.length = 0)]

set_option maxRecDepth 10000 in
/-- Claim C5, witness for the amended theorem. -/
theorem c5_mmap_offset_beyond_raises_seek_error_witness :
    (1086 ≤ fileMapBeyond.length ∧
      fileMapBeyond.length < mappingOffsetOf fileMapBeyond) ∧
    snapshotReaderInit (some fileMapBeyond) true = .error .seekOutOfRange :=
  ⟨⟨by decide, by decide⟩,
    c5_mmap_offset_beyond_raises_seek_error fileMapBeyond (by decide) (by decide)⟩

/-- Claim C7, counterexample.  The claim says an escape whose two following
characters are not both hex digits raises `FilterSyntaxError`.  The
space in `\ f` is no hex digit, yet `(a=\ f)` parses successfully — to an
equality on the byte 0x0f — because `_parse_escape` delegates to Python
`int(·, 16)`, which strips whitespace. -/
theorem c7_nonhex_escape_accepted :
    pyDigitVal 16 ' ' = none ∧
    parseFilterText (s2c "(a=\\ f)") = .ok (.equality ['a'] [15]) :=
  ⟨rfl, rfl⟩

/-- Claim C7, amended.  An incomplete escape (fewer than two characters
remaining) raises `FilterSyntaxError`, and a two-hex-digit escape emits
the corresponding byte; but the two characters are accepted whenever
Python `int(·, 16)` parses them — whitespace and a sign around a single
hex digit are tolerated (`\ f` emits 0x0f), and a negative form such as
`\-f` fails later in `bytearray.append` with a plain `ValueError`
(`byteRange`), not a `FilterSyntaxError`.  Only pairs `int(·, 16)`
rejects raise `FilterSyntaxError`. -/
theorem c7_escape_behaviour :
    (∀ s : List Char, s.length < 2 → parseEscape s = .error .filterSyntaxError) ∧
    (∀ (c1 c2 : Char) (rest : List Char) (n : ℤ),
      pyIntBase16 [c1, c2] = some n →
      parseEscape (c1 :: c2 :: rest) = .ok (n, rest)) ∧
    (∀ (c1 c2 : Char) (rest : List Char),
      pyIntBase16 [c1, c2] = none →
      parseEscape (c1 :: c2 :: rest) = .error .filterSyntaxError) ∧
    (∀ rest : List Char, parseEscape ('2' :: 'a' :: rest) = .ok (42, rest)) ∧
    parseEscape [' ', 'f'] = .ok (15, []) ∧
    byteAppend [] (-15) = .error .byteRange := by
  have hlen : ∀ (c1 c2 : Char) (rest : List Char),
      ¬ (c1 :: c2 :: rest).length < 2 := by
    intro c1 c2 rest
    simp only [List.length_cons]
    omega
  have htake : ∀ (c1 c2 : Char) (rest : List Char),
      (c1 :: c2 :: rest).take 2 = [c1, c2] := by
    intro c1 c2 rest
    rfl
  have hdrop : ∀ (c1 c2 : Char) (rest : List Char),
      (c1 :: c2 :: rest).drop 2 = rest := by
    intro c1 c2 rest
    rfl
  refine ⟨?_, ?_, ?_, ?_, rfl, rfl⟩
  · intro s h
    unfold parseEscape
    rw [if_pos h]
  · intro c1 c2 rest n h
    unfold parseEscape
    rw [if_neg (hlen c1 c2 rest), htake, hdrop, h]
  · intro c1 c2 rest h
    unfold parseEscape
    rw [if_neg (hlen c1 c2 rest), htake, h]
  · intro rest
    unfold parseEscape
    rw [if_neg (hlen '2' 'a' rest), htake, hdrop]
    rfl

/-- Claim C7, witness for the amended theorem. -/
theorem c7_escape_behaviour_witness :
    ([' '].length < 2 ∧ pyIntBase16 ['z', 'z'] = none ∧
      pyIntBase16 [' ', 'f'] = some 15) ∧
    parseEscape [' '] = .error .filterSyntaxError ∧
    parseEscape ('z' :: 'z' :: s2c "rest") = .error .filterSyntaxError ∧
    parseEscape (' ' :: 'f' :: s2c "xy") = .ok (15, s2c "xy") ∧
    parseEscape ('2' :: 'a' :: s2c "xy") = .ok (42, s2c "xy") :=
  ⟨⟨by decide, rfl, rfl⟩,
    c7_escape_behaviour.1 [' '] (by decide),
    c7_escape_behaviour.2.2.1 'z' 'z' (s2c "rest") rfl,
    c7_escape_behaviour.2.1 ' ' 'f' (s2c "xy") 15 rfl,
    c7_escape_behaviour.2.2.2.1 (s2c "xy")⟩

/-- Claim C9.  The evaluation context's case-insensitivity flag is accepted
but never consulted: for every filter tree, reader and entry, evaluation
yields the same result (including any raised error) under both flag
values — the evaluator's string comparisons are unconditionally
case-folded. -/
theorem c9_ignore_case_flag_inert :
    ∀ (node : FilterNode) (r : SnapshotReader) (e : SnapshotEntry) (b1 b2 : Bool),
      evaluate node ⟨r, e, b1⟩ = evaluate node ⟨r, e, b2⟩ := by
  have main : ∀ (k : ℕ) (node : FilterNode), sizeOf node ≤ k →
      ∀ (r : SnapshotReader) (e : SnapshotEntry) (b1 b2 : Bool),
        evaluate node ⟨r, e, b1⟩ = evaluate node ⟨r, e, b2⟩ := by
    intro k
    induction k with
    | zero =>
      intro node h
      exact absurd h (by cases node <;> simp)
    | succ k ih =>
      intro node h r e b1 b2
      match node with
      | .and [] => simp [evaluate]
      | .and (n :: rest) =>
        have hn : sizeOf n ≤ k := by
          simp only [FilterNode.and.sizeOf_spec, List.cons.sizeOf_spec] at h
          omega
        have hrest : sizeOf (FilterNode.and rest) ≤ k := by
          simp only [FilterNode.and.sizeOf_spec, List.cons.sizeOf_spec] at h ⊢
          omega
        simp only [evaluate]
        rw [ih n hn r e b1 b2]
        cases hev : evaluate n ⟨r, e, b2⟩ with
        | error err => rfl
        | ok b =>
          cases b
          · rfl
          · exact ih (.and rest) hrest r e b1 b2
      | .or [] => simp [evaluate]
      | .or (n :: rest) =>
        have hn : sizeOf n ≤ k := by
          simp only [FilterNode.or.sizeOf_spec, List.cons.sizeOf_spec] at h
          omega
        have hrest : sizeOf (FilterNode.or rest) ≤ k := by
          simp only [FilterNode.or.sizeOf_spec, List.cons.sizeOf_spec] at h ⊢
          omega
        simp only [evaluate]
        rw [ih n hn r e b1 b2]
        cases hev : evaluate n ⟨r, e, b2⟩ with
        | error err => rfl
        | ok b =>
          cases b
          · exact ih (.or rest) hrest r e b1 b2
          · rfl
      | .not n =>
        have hn : sizeOf n ≤ k := by
          simp only [FilterNode.not.sizeOf_spec] at h
          omega
        simp only [evaluate]
        rw [ih n hn r e b1 b2]
      | .presence attr =>
        simp only [evaluate]
        rfl
      | .equality attr value =>
        simp only [evaluate]
        rfl
      | .substring attr pat =>
        simp only [evaluate]
        rfl
  intro node r e b1 b2
  exact main (sizeOf node) node (Nat.le_refl _) r e b1 b2

/-- With no limit, a successful scan that yields a non-empty result list
starts with the same entry the `limit = 0` scan stops at. -/
theorem searchLoop_limit_zero_head (r : SnapshotReader) (f : FilterNode)
    (ic : Bool) :
    ∀ (offs : List ℕ) (ev m : ℕ) (res : List SnapshotEntry) (ev' m' : ℕ)
      (en : SnapshotEntry) (rest : List SnapshotEntry),
      searchLoop r f ic none offs ev m = .ok (res, ev', m') →
      res = en :: rest →
      ∃ ev2 m2, searchLoop r f ic (some 0) offs ev m = .ok ([en], ev2, m2) := by
  intro offs
  induction offs with
  | nil =>
    intro ev m res ev' m' en rest h hres
    simp only [searchLoop, Except.ok.injEq, Prod.mk.injEq] at h
    obtain ⟨h1, -, -⟩ := h
    rw [← h1] at hres
    exact absurd hres (by simp)
  | cons off tail ih =>
    intro ev m res ev' m' en rest h hres
    simp only [searchLoop] at h ⊢
    cases hinit : SnapshotEntry.init r off with
    | error err => rw [hinit, exBind_error] at h; exact absurd h (by simp)
    | ok entry =>
      rw [hinit, exBind_ok] at h
      rw [exBind_ok]
      cases hev : evaluate f { reader := r, entry := entry, ignoreCase := ic } with
      | error err => rw [hev, exBind_error] at h; exact absurd h (by simp)
      | ok b =>
        rw [hev, exBind_ok] at h
        rw [exBind_ok]
        cases b
        · rw [if_neg (by simp : ¬ (false = true))] at h ⊢
          exact ih (ev + 1) m res ev' m' en rest h hres
        · rw [if_pos rfl] at h ⊢
          rw [if_pos (Nat.zero_le _)]
          cases hrec : searchLoop r f ic none tail (ev + 1) (m + 1) with
          | error err =>
            rw [hrec, exBind_error] at h
            exact absurd h (by simp)
          | ok trip =>
            rw [hrec, exBind_ok] at h
            simp only [Except.ok.injEq, Prod.mk.injEq] at h
            obtain ⟨hres3, -⟩ := h
            have hen : en = entry := by
              rw [← hres3] at hres
              exact (List.cons.injEq .. ▸ hres).1.symm
            exact ⟨ev + 1, m + 1, by rw [hen]⟩

/-- With `lim` not `None` and fewer matches than the limit so far, a
successful scan yields at most `lim - m` further entries. -/
theorem searchLoop_limit_bound (r : SnapshotReader) (f : FilterNode) (ic : Bool)
    (l : ℕ) :
    ∀ (offs : List ℕ) (ev m : ℕ) (res : List SnapshotEntry) (ev' m' : ℕ),
      m < l →
      searchLoop r f ic (some l) offs ev m = .ok (res, ev', m') →
      res.length ≤ l - m := by
  intro offs
  induction offs with
  | nil =>
    intro ev m res ev' m' hm h
    simp only [searchLoop, Except.ok.injEq, Prod.mk.injEq] at h
    obtain ⟨h1, -, -⟩ := h
    rw [← h1]
    simp
  | cons off tail ih =>
    intro ev m res ev' m' hm h
    simp only [searchLoop] at h
    cases hinit : SnapshotEntry.init r off with
    | error err => rw [hinit, exBind_error] at h; exact absurd h (by simp)
    | ok entry =>
      rw [hinit, exBind_ok] at h
      cases hev : evaluate f { reader := r, entry := entry, ignoreCase := ic } with
      | error err => rw [hev, exBind_error] at h; exact absurd h (by simp)
      | ok b =>
        rw [hev, exBind_ok] at h
        cases b
        · rw [if_neg (by simp : ¬ (false = true))] at h
          exact ih (ev + 1) m res ev' m' hm h
        · rw [if_pos rfl] at h
          by_cases hl : l ≤ m + 1
          · rw [if_pos hl] at h
            simp only [Except.ok.injEq, Prod.mk.injEq] at h
            obtain ⟨h1, -, -⟩ := h
            rw [← h1]
            simp only [List.length_singleton]
            omega
          · rw [if_neg hl] at h
            cases hrec : searchLoop r f ic (some l) tail (ev + 1) (m + 1) with
            | error err => rw [hrec, exBind_error] at h; exact absurd h (by simp)
            | ok trip =>
              obtain ⟨res3, ev3, m3⟩ := trip
              rw [hrec, exBind_ok] at h
              simp only [Except.ok.injEq, Prod.mk.injEq] at h
              obtain ⟨h1, -⟩ := h
              have hb := ih (ev + 1) (m + 1) res3 ev3 m3 (by omega) hrec
              rw [← h1]
              simp only [List.length_cons]
              omega

/-- Claim C10.  With `limit = 0` the first matching entry is still yielded:
the limit is only tested after a match has been produced, so whenever the
unlimited scan yields a non-empty result, the `limit = 0` scan returns
exactly the first of those entries; the "at most `limit` results" bound
does hold for every limit `n ≥ 1`. -/
theorem c10_limit_zero_still_yields :
    (∀ (r : SnapshotReader) (f : FilterNode) (ic : Bool)
        (attrs : Option (List (List Char))) (res : List SnapshotEntry)
        (st : QueryStats) (en : SnapshotEntry) (rest : List SnapshotEntry),
      (mkQueryEngine r f ic attrs none).search = .ok (res, st) →
      res = en :: rest →
      ∃ st2, (mkQueryEngine r f ic attrs (some 0)).search = .ok ([en], st2)) ∧
    (∀ (r : SnapshotReader) (f : FilterNode) (ic : Bool)
        (attrs : Option (List (List Char))) (n : ℕ) (res : List SnapshotEntry)
        (st : QueryStats),
      1 ≤ n →
      (mkQueryEngine r f ic attrs (some n)).search = .ok (res, st) →
      res.length ≤ n) := by
  constructor
  · intro r f ic attrs res st en rest h hres
    simp only [QueryEngine.search, mkQueryEngine] at h ⊢
    cases hrun : searchLoop r f ic none r.objectOffsets 0 0 with
    | error err => rw [hrun] at h; exact absurd h (by simp)
    | ok trip =>
      obtain ⟨res0, ev0, m0⟩ := trip
      rw [hrun] at h
      simp only [Except.ok.injEq, Prod.mk.injEq] at h
      obtain ⟨h1, -⟩ := h
      obtain ⟨ev2, m2, h2⟩ :=
        searchLoop_limit_zero_head r f ic r.objectOffsets 0 0 res0 ev0 m0 en rest
          hrun (h1 ▸ hres)
      refine ⟨{ entriesEvaluated := ev2, matchCount := m2 }, ?_⟩
      rw [h2]
  · intro r f ic attrs n res st hn h
    simp only [QueryEngine.search, mkQueryEngine] at h
    cases hrun : searchLoop r f ic (some n) r.objectOffsets 0 0 with
    | error err => rw [hrun] at h; exact absurd h (by simp)
    | ok trip =>
      obtain ⟨res0, ev0, m0⟩ := trip
      rw [hrun] at h
      simp only [Except.ok.injEq, Prod.mk.injEq] at h
      obtain ⟨h1, -⟩ := h
      have := searchLoop_limit_bound r f ic n r.objectOffsets 0 0 res0 ev0 m0
        (by omega) hrun
      rw [← h1]
      omega

/-- Claim C10, witness: on the clean two-entry snapshot, the unlimited scan
of `(cn=*)` yields both entries, and the `limit = 0` scan still yields
the first. -/
theorem c10_limit_zero_still_yields_witness :
    ((mkQueryEngine rdClean (.presence (s2c "cn")) false none none).search =
        .ok ([⟨0, 28, [(0, 16)]⟩, ⟨28, 28, [(0, 16)]⟩], ⟨2, 2⟩) ∧
      ([⟨0, 28, [(0, 16)]⟩, ⟨28, 28, [(0, 16)]⟩] : List SnapshotEntry) =
        ⟨0, 28, [(0, 16)]⟩ :: [⟨28, 28, [(0, 16)]⟩]) ∧
    ∃ st2,
      (mkQueryEngine rdClean (.presence (s2c "cn")) false none (some 0)).search =
        .ok ([⟨0, 28, [(0, 16)]⟩], st2) := by
  have e1 : SnapshotEntry.init rdClean 0 = .ok ⟨0, 28, [(0, 16)]⟩ := rfl
  have e2 : SnapshotEntry.init rdClean 28 = .ok ⟨28, 28, [(0, 16)]⟩ := rfl
  have v1 : evaluate (.presence (s2c "cn")) ⟨rdClean, ⟨0, 28, [(0, 16)]⟩, false⟩ =
      .ok true := by
    simp only [evaluate]
    rfl
  have v2 : evaluate (.presence (s2c "cn")) ⟨rdClean, ⟨28, 28, [(0, 16)]⟩, false⟩ =
      .ok true := by
    simp only [evaluate]
    rfl
  have hoff : rdClean.objectOffsets = [0, 28] := rfl
  have hrun : (mkQueryEngine rdClean (.presence (s2c "cn")) false none none).search =
      .ok ([⟨0, 28, [(0, 16)]⟩, ⟨28, 28, [(0, 16)]⟩], ⟨2, 2⟩) := by
    simp [QueryEngine.search, mkQueryEngine, hoff, searchLoop, e1, e2, v1, v2]
  exact ⟨⟨hrun, rfl⟩,
    c10_limit_zero_still_yields.1 rdClean (.presence (s2c "cn")) false none
      _ _ _ _ hrun rfl⟩

/-- Scanning an attribute name consisting of non-stop characters consumes
exactly the name and halts at the following `=`. -/
theorem attrScan (a t : List Char) (h : ∀ c ∈ a, ¬ attrStopChar c) :
    (a ++ '=' :: t).takeWhile (fun c => !attrStopChar c) = a ∧
    (a ++ '=' :: t).dropWhile (fun c => !attrStopChar c) = '=' :: t := by
  induction a with
  | nil =>
    constructor
    · simp [List.takeWhile_cons, attrStopChar]
    · simp [List.dropWhile_cons, attrStopChar]
  | cons c rest ih =>
    have hc : ¬ attrStopChar c = true := h c (List.mem_cons_self _ _)
    obtain ⟨iht, ihd⟩ := ih (fun x hx => h x (List.mem_cons_of_mem _ hx))
    constructor
    · simp only [List.cons_append, List.takeWhile_cons]
      simp [hc, iht]
    · simp only [List.cons_append, List.dropWhile_cons]
      simp [hc, ihd]

/-- `_parse_value_segments` always returns one more segment than the
number of unescaped `*` it consumed. -/
theorem parseValueSegmentsAux_length :
    ∀ (fuel : ℕ) (s : List Char) (buf : List ℕ) (segs : List (List ℕ))
      (stars : ℕ) (segs' : List (List ℕ)) (stars' : ℕ) (rest' : List Char),
      parseValueSegmentsAux fuel s buf segs stars = .ok ((segs', stars'), rest') →
      segs'.length + stars = segs.length + stars' + 1 := by
  intro fuel
  induction fuel with
  | zero =>
    intro s buf segs stars segs' stars' rest' h
    rw [show parseValueSegmentsAux 0 s buf segs stars =
      .error .outOfFuel from rfl] at h
    exact absurd h (by simp)
  | succ fuel ih =>
    intro s buf segs stars segs' stars' rest' h
    match s with
    | [] =>
      rw [show parseValueSegmentsAux (fuel + 1) [] buf segs stars =
        .error .filterSyntaxError from rfl] at h
      exact absurd h (by simp)
    | c :: rest =>
      simp only [parseValueSegmentsAux] at h
      by_cases h1 : c = ')'
      · rw [if_pos h1] at h
        simp only [Except.ok.injEq, Prod.mk.injEq] at h
        obtain ⟨⟨hs, hst⟩, -⟩ := h
        rw [← hs, ← hst]
        simp only [List.length_append, List.length_singleton]
        omega
      · rw [if_neg h1] at h
        by_cases h2 : c = '*'
        · rw [if_pos h2] at h
          have := ih rest [] (segs ++ [buf]) (stars + 1) segs' stars' rest' h
          simp only [List.length_append, List.length_singleton] at this
          omega
        · rw [if_neg h2] at h
          by_cases h3 : c = '\\'
          · rw [if_pos h3] at h
            cases hesc : parseEscape rest with
            | error err => rw [hesc, exBind_error] at h; exact absurd h (by simp)
            | ok pr =>
              rw [hesc, exBind_ok] at h
              cases happ : byteAppend buf pr.1 with
              | error err => rw [happ, exBind_error] at h; exact absurd h (by simp)
              | ok buf2 =>
                rw [happ, exBind_ok] at h
                exact ih pr.2 buf2 segs stars segs' stars' rest' h
          · rw [if_neg h3] at h
            cases happ : byteAppend buf (c.toNat : ℤ) with
            | error err => rw [happ, exBind_error] at h; exact absurd h (by simp)
            | ok buf2 =>
              rw [happ, exBind_ok] at h
              exact ih rest buf2 segs stars segs' stars' rest' h

/-- Claim C8.  Classification of a parsed item's value: with exactly one
unescaped `*` and both sides empty the item parses to a `PresenceNode`
on the attribute; with no unescaped `*` it parses to an `EqualityNode`
whose literal is the single escape-decoded segment — in particular
`(attr=\2a)` parses to an equality on the byte 0x2a, and `(attr=*)` to a
presence node. -/
theorem c8_item_value_classification :
    (∀ (a v : List Char) (segs : List (List ℕ)) (stars : ℕ),
      a ≠ [] →
      (∀ c ∈ a, ¬ attrStopChar c ∧ ¬ pyIsSpace c ∧ c ∉ ['&', '|', '!']) →
      pyStrip a = a →
      parseValueSegments v = .ok ((segs, stars), [')']) →
      ((stars = 1 ∧ segs = [[], []]) →
        parseFilterText ('(' :: a ++ '=' :: v) = .ok (.presence a)) ∧
      (stars = 0 →
        ∃ seg, segs = [seg] ∧
          parseFilterText ('(' :: a ++ '=' :: v) = .ok (.equality a seg))) ∧
    parseFilterText (s2c "(attr=\\2a)") = .ok (.equality (s2c "attr") [42]) ∧
    parseFilterText (s2c "(attr=*)") = .ok (.presence (s2c "attr")) := by
  refine ⟨?_, rfl, rfl⟩
  intro a v segs stars hne hchars hstrip hv
  obtain ⟨a0, a', rfl⟩ : ∃ a0 a', a = a0 :: a' := by
    cases a with
    | nil => exact absurd rfl hne
    | cons x xs => exact ⟨x, xs, rfl⟩
  obtain ⟨hstop0, hspace0, hsym0⟩ := hchars a0 (List.mem_cons_self _ _)
  have hamp : ¬ (a0 = '&') := fun he => hsym0 (by simp [he])
  have hbar : ¬ (a0 = '|') := fun he => hsym0 (by simp [he])
  have hbang : ¬ (a0 = '!') := fun he => hsym0 (by simp [he])
  have hs0 : skipSpaces ('(' :: (a0 :: a') ++ '=' :: v) =
      '(' :: ((a0 :: a') ++ '=' :: v) := by
    unfold skipSpaces
    rw [List.cons_append, List.dropWhile_cons, if_neg (by decide)]
  have hexp1 : expectChar '(' ('(' :: ((a0 :: a') ++ '=' :: v)) =
      .ok ((a0 :: a') ++ '=' :: v) := by
    simp [expectChar]
  have hs3 : skipSpaces ((a0 :: a') ++ '=' :: v) = a0 :: (a' ++ '=' :: v) := by
    unfold skipSpaces
    rw [List.cons_append, List.dropWhile_cons, if_neg (by simpa using hspace0)]
  have hpeek : peekChar (a0 :: (a' ++ '=' :: v)) = .ok a0 := rfl
  have hattr : parseAttribute (a0 :: (a' ++ '=' :: v)) =
      .ok (a0 :: a', '=' :: v) := by
    unfold parseAttribute
    have hsc := attrScan (a0 :: a') v (fun c hc => (hchars c hc).1)
    rw [List.cons_append] at hsc
    rw [hsc.1, hsc.2]
    rw [if_neg (by simp)]
    rw [hstrip]
  have hexp2 : expectChar '=' ('=' :: v) = .ok v := by simp [expectChar]
  have hfuel : 2 * ('(' :: (a0 :: a') ++ '=' :: v).length + 2 =
      (2 * ('(' :: (a0 :: a') ++ '=' :: v).length + 1) + 1 := rfl
  have hspine : ∀ fuel : ℕ,
      parseFilterAux (fuel + 1) ('(' :: (a0 :: a') ++ '=' :: v) =
        (if stars = 1 ∧ segs = [[], []] then
          exBind (expectChar ')' [')']) fun s7 => .ok (.presence (a0 :: a'), s7)
        else if 1 ≤ stars then
          exBind (buildSubstringPattern segs) fun pat =>
          exBind (expectChar ')' [')']) fun s7 =>
            .ok (.substring (a0 :: a') pat, s7)
        else
          match segs with
          | [] => .error .indexError
          | seg :: _ =>
            exBind (expectChar ')' [')']) fun s7 =>
              .ok (.equality (a0 :: a') seg, s7)) := by
    intro fuel
    simp only [parseFilterAux, hs0, hexp1, exBind_ok, hs3, hpeek,
      if_neg hamp, if_neg hbar, if_neg hbang, hattr, hexp2, hv]
  constructor
  · rintro ⟨hstars, hsegs⟩
    unfold parseFilterText
    rw [hfuel, hspine]
    rw [if_pos ⟨hstars, hsegs⟩]
    simp [expectChar, skipSpaces]
  · intro hstars
    have hlen := parseValueSegmentsAux_length (v.length + 1) v [] [] 0 segs stars
      [')'] hv
    obtain ⟨seg, hseg⟩ : ∃ seg, segs = [seg] := by
      apply List.length_eq_one.mp
      simp only [List.length_nil] at hlen
      omega
    refine ⟨seg, hseg, ?_⟩
    unfold parseFilterText
    rw [hfuel, hspine]
    rw [if_neg (by simp [hstars]), if_neg (by omega), hseg]
    simp [expectChar, skipSpaces]

/-- Claim C8, witness: the attribute "cn" and the value texts `*` and
`al\2a` instantiate the two universal branches. -/
theorem c8_item_value_classification_witness :
    ((s2c "cn" ≠ [] ∧ pyStrip (s2c "cn") = s2c "cn") ∧
      parseValueSegments (s2c "*)") = .ok (([[], []], 1), [')']) ∧
      parseValueSegments (s2c "al\\2a)") = .ok (([[97, 108, 42]], 0), [')'])) ∧
    parseFilterText ('(' :: s2c "cn" ++ '=' :: s2c "*)") =
      .ok (.presence (s2c "cn")) ∧
    ∃ seg, ([[97, 108, 42]] : List (List ℕ)) = [seg] ∧
      parseFilterText ('(' :: s2c "cn" ++ '=' :: s2c "al\\2a)") =
        .ok (.equality (s2c "cn") seg) := by
  refine ⟨⟨⟨by decide, rfl⟩, rfl, rfl⟩, ?_, ?_⟩
  · exact (c8_item_value_classification.1 (s2c "cn") (s2c "*)") [[], []] 1
      (by decide) (by decide) rfl rfl).1 ⟨rfl, rfl⟩
  · exact (c8_item_value_classification.1 (s2c "cn") (s2c "al\\2a)")
      [[97, 108, 42]] 0 (by decide) (by decide) rfl rfl).2 rfl


end AdxQuery
